import Mathlib

/-!
# CPM scheduling engine — shallow embedding

Shallow embedding of `src-tauri/src/date_utils.rs`, `src-tauri/src/cpm.rs` and
`src-tauri/src/engine_state.rs` (with the initialization gate of
`src-tauri/src/commands.rs`) of the Pro-Logic-Scheduler repository, together
with theorems settling the specification claims.

Modelling conventions:

* Dates are integer day ordinals; `none` stands for the empty string `""`.
  Day 0 is a Sunday, so the weekday index of day `d` (0 = Sunday .. 6 =
  Saturday, exactly the source's chrono mapping) is `d % 7`.  Concrete
  examples use the convention that day `k` (for `1 ≤ k ≤ 31`) is 2024-01-`k`;
  2024-01-01 was a Monday and indeed `1 % 7 = 1`.  Lexicographic comparison of
  ISO `YYYY-MM-DD` strings agrees with the integer order on valid dates, so
  the source's string comparisons become integer comparisons.  Non-empty
  unparseable date strings, `Some("")` constraint dates and the bounded range
  of chrono's `NaiveDate` are outside the model.
* Calendar exceptions are an association list from day ordinal to the
  exception's effective working flag: an exception object carrying a boolean
  `working` field yields that boolean, any other exception entry (a plain
  string, or an object without a boolean `working`) is non-working, i.e.
  `false` — the source's `is_work_day` reduces every exception value to such
  a flag before use.
* The day-stepping loops of `add_work_days` are modelled with an explicit
  fuel parameter.  Exhausting the fuel — which cannot happen on a calendar
  having at least one working weekday, see the termination theorem below —
  makes the total wrapper return its input date unchanged; that branch is an
  artifact standing for the source's divergence and is unreachable under the
  termination precondition.
* Rust's `HashMap` is modelled as an association list with replace-on-insert,
  which agrees with `HashMap` on every lookup performed by the source.
-/

namespace Scheduler

/-- Calendar: `types.rs` `Calendar` (working weekday indices, date exceptions). -/
structure Calendar where
  workingDays : List Int
  exceptions : List (Int × Bool)
deriving DecidableEq

/-- Association-list lookup (models both `HashMap::get` and JSON-map access). -/
def lookupA {α : Type} : List (String × α) → String → Option α
  | [], _ => none
  | (k', v) :: rest, k => if k' = k then some v else lookupA rest k

/-- Association-list insert-or-replace (models `HashMap::insert`). -/
def insertReplace {α : Type} : List (String × α) → String → α → List (String × α)
  | [], k, v => [(k, v)]
  | (k', v') :: rest, k, v =>
    if k' = k then (k, v) :: rest else (k', v') :: insertReplace rest k v

/-- Association-list in-place modification (models `HashMap::get_mut` + mutation;
a missing key is left alone, as the source's `if let Some(..) = get_mut`). -/
def modifyA {α : Type} : List (String × α) → String → (α → α) → List (String × α)
  | [], _, _ => []
  | (k', v) :: rest, k, f =>
    if k' = k then (k', f v) :: rest else (k', v) :: modifyA rest k f

/-- Exception lookup by day ordinal (`calendar.exceptions.get(&date_str)`). -/
def lookupExc : List (Int × Bool) → Int → Option Bool
  | [], _ => none
  | (k, b) :: rest, d => if k = d then some b else lookupExc rest d

/-- Source `date_utils.rs::is_work_day`: an exception decides the day; otherwise the
weekday index (Sun=0 .. Sat=6, here `d % 7`) must be in `workingDays`. -/
def is_work_day (d : Int) (cal : Calendar) : Bool :=
  match lookupExc cal.exceptions d with
  | some b => b
  | none => cal.workingDays.contains (d % 7)

/-- The snapping loop of `add_work_days` (`while !is_work_day(date) { step }`),
checked on the current day first; `none` means the fuel ran out. -/
def snapF (cal : Calendar) (dir : Int) : Nat → Int → Option Int
  | 0, _ => none
  | fuel + 1, d => if is_work_day d cal then some d else snapF cal dir fuel (d + dir)

/-- The counting loop of `add_work_days`
(`while remaining > 0 { step; if work_day { remaining -= 1 } }`);
`none` means the fuel ran out. -/
def walkF (cal : Calendar) (dir : Int) : Nat → Nat → Int → Option Int
  | _, 0, d => some d
  | 0, _ + 1, _ => none
  | fuel + 1, r + 1, d =>
    walkF cal dir fuel (if is_work_day (d + dir) cal then r else r + 1) (d + dir)

/-- Source `date_utils.rs::add_work_days` on a parsed (valid) date: the `days = 0`
branch snaps forward to the next working day; otherwise walk `|days|` working
days in the sign direction, then snap in the same direction.  `none` = fuel
ran out (the source would loop forever). -/
def addWorkDaysOpt (cal : Calendar) (fuel : Nat) (d : Int) (n : Int) : Option Int :=
  if n = 0 then snapF cal 1 fuel d
  else
    let dir : Int := if 0 ≤ n then 1 else -1
    match walkF cal dir fuel n.natAbs d with
    | none => none
    | some e => snapF cal dir fuel e

/-- Total `add_work_days` on a valid date: fuel exhaustion returns the input
date unchanged (stands for the source's divergence, unreachable on calendars
with a working weekday). -/
def addWorkDaysI (cal : Calendar) (fuel : Nat) (d : Int) (n : Int) : Int :=
  match addWorkDaysOpt cal fuel d n with
  | none => d
  | some r => r

/-- Total `add_work_days` on an optional date: the empty date is returned
unchanged (source: empty or unparseable input strings). -/
def add_work_days (cal : Calendar) (fuel : Nat) (d : Option Int) (n : Int) : Option Int :=
  match d with
  | none => none
  | some d0 => some (addWorkDaysI cal fuel d0 n)

/-- Count the working days among `a, a+1, ..., a+n-1` (the counting loop shared
by `calc_work_days` and `calc_work_days_difference`). -/
def countWorkAux (cal : Calendar) : Int → Nat → Nat
  | _, 0 => 0
  | a, n + 1 => (if is_work_day a cal then 1 else 0) + countWorkAux cal (a + 1) n

/-- Source `date_utils.rs::calc_work_days`: inclusive working-day span between two
dates (orientation-normalised), clamped to at least 1; 0 if either date is
empty. -/
def calc_work_days (cal : Calendar) (s e : Option Int) : Int :=
  match s, e with
  | some sv, some ev =>
    let a := if sv ≤ ev then sv else ev
    let b := if sv ≤ ev then ev else sv
    max (countWorkAux cal a ((b - a).toNat + 1) : Int) 1
  | _, _ => 0

/-- Source `date_utils.rs::calc_work_days_difference`: signed working-day difference;
0 when equal; when `e > s` it counts working days over `s+1 .. e`; when
`e < s` it counts working days over `e+1 .. s`, negated. -/
def calc_work_days_difference (cal : Calendar) (s e : Option Int) : Int :=
  match s, e with
  | some sv, some ev =>
    if sv = ev then 0
    else if sv < ev then (countWorkAux cal (sv + 1) (ev - sv).toNat : Int)
    else -(countWorkAux cal (ev + 1) (sv - ev).toNat : Int)
  | _, _ => 0

/-- The Monday-to-Friday calendar with no exceptions, used by the concrete
scenarios of the specification. -/
def calMonFri : Calendar := { workingDays := [1, 2, 3, 4, 5], exceptions := [] }

example : is_work_day 1 calMonFri = true := by decide
example : is_work_day 6 calMonFri = false := by decide
example : is_work_day 7 calMonFri = false := by decide
example : addWorkDaysOpt calMonFri 100 6 0 = some 8 := by decide
example : addWorkDaysOpt calMonFri 100 3 2 = some 5 := by decide
example : addWorkDaysOpt calMonFri 100 5 1 = some 8 := by decide
example : addWorkDaysOpt calMonFri 100 8 (-1) = some 5 := by decide
example : calc_work_days calMonFri (some 1) (some 8) = 6 := by decide
example : calc_work_days_difference calMonFri (some 8) (some 7) = -1 := by decide
example : calc_work_days_difference calMonFri (some 5) (some 8) = 1 := by decide

/-- ASCII lowercase of one character (`A`–`Z` map to `a`–`z`). -/
def lowerChar (c : Char) : Char :=
  if 65 ≤ c.toNat ∧ c.toNat ≤ 90 then Char.ofNat (c.toNat + 32) else c

/-- Rust's `str::to_lowercase` restricted to ASCII, which covers every
constraint-type string the source compares against (`snet`, `snlt`, `fnet`,
`fnlt`, `mfo`). -/
def toLowerStr (s : String) : String := String.mk (s.data.map lowerChar)

/-- Source `types.rs::Dependency` (field `type` is `link_type`). -/
structure Dependency where
  id : String
  linkType : String
  lag : Int
deriving DecidableEq

/-- Source `types.rs::Task`.  The `_totalFloat` / `_freeFloat` `f64` mirror fields are
omitted: the source only ever writes them as exact copies of
`total_float_days` / `free_float_days` and never reads them (floating point is
not modelled).  Dates read by the scheduling passes (`start`, `end`,
`constraint_date`, `late_start`, `late_finish`) are day ordinals with `none`
for the empty string / `None`; pass-through date strings that the engine never
parses (actuals, baselines) stay `Option String`. -/
structure Task where
  id : String
  name : String
  parentId : Option String
  sortKey : String
  rowType : Option String
  level : Int
  start : Option Int
  end_ : Option Int
  duration : Int
  constraintType : String
  constraintDate : Option Int
  schedulingMode : String
  dependencies : List Dependency
  progress : Int
  notes : String
  isCritical : Option Bool
  lateStart : Option Int
  lateFinish : Option Int
  totalFloatDays : Option Int
  freeFloatDays : Option Int
  collapsed : Option Bool
  actualStart : Option String
  actualFinish : Option String
  remainingDuration : Option Int
  baselineStart : Option String
  baselineFinish : Option String
  baselineDuration : Option Int
  wbs : Option String
  tradePartnerIds : Option (List String)
deriving DecidableEq

/-- Source `cpm.rs::SuccessorEntry`. -/
structure SuccessorEntry where
  id : String
  linkType : String
  lag : Int
deriving DecidableEq

/-- Source `cpm.rs::MAX_CPM_ITERATIONS`. -/
def MAX_CPM_ITERATIONS : Nat := 50

/-- Source `cpm.rs::get_duration_offset`: `EF = ES + duration - 1`, 0 for milestones
and non-positive durations. -/
def get_duration_offset (duration : Int) : Int :=
  if duration ≤ 0 then 0 else duration - 1

/-- Source `cpm.rs::is_parent`: a task is a parent iff some task names it as
`parent_id`. -/
def is_parent (taskId : String) (tasks : List Task) : Bool :=
  tasks.any (fun t => decide (t.parentId = some taskId))

/-- Source `cpm.rs::get_depth`: follow the `parent_id` chain.  The source's recursion
is unbounded (it would overflow the stack on a cyclic parent chain); the fuel
argument makes it total, returning the accumulator on exhaustion. -/
def get_depth (tasks : List Task) : Nat → String → Int → Int
  | 0, _, depth => depth
  | fuel + 1, taskId, depth =>
    match tasks.find? (fun t => t.id == taskId) with
    | some t =>
      match t.parentId with
      | some pid => get_depth tasks fuel pid (depth + 1)
      | none => depth
    | none => depth

/-- Depth of a task, with fuel ample for every acyclic parent chain
(all the source's call sites pass accumulator 0). -/
def taskDepth (tasks : List Task) (taskId : String) : Int :=
  get_depth tasks (tasks.length + 1) taskId 0

/-- The `parent_ids` vector collected at the top of every pass:
ids of tasks that are parents, in task order. -/
def parentIdsOf (tasks : List Task) : List String :=
  (tasks.filter (fun t => is_parent t.id tasks)).map (fun t => t.id)

/-- Source `cpm.rs::build_successor_map`: empty entry for every task, then for every
dependency `t depends on dep.id` push `t` as successor of `dep.id`. -/
def build_successor_map (tasks : List Task) : List (String × List SuccessorEntry) :=
  let m0 := tasks.foldl (fun m t => insertReplace m t.id ([] : List SuccessorEntry)) []
  tasks.foldl (fun m t =>
    t.dependencies.foldl (fun m' dep =>
      modifyA m' dep.id
        (fun l => l ++ [{ id := t.id, linkType := dep.linkType, lag := dep.lag }])) m) m0

/-- Option-valued maximum (merging one more candidate, keeping the earlier
value on ties exactly like the source's strict `>` updates). -/
def omax : Option Int → Option Int → Option Int
  | none, b => b
  | some a, none => some a
  | some a, some b => some (max a b)

/-- Maximum of a list of dates, `none` for the empty list. -/
def listMax (l : List Int) : Option Int :=
  l.foldl (fun a x => omax a (some x)) none

/-- Minimum of a list of dates, `none` for the empty list. -/
def listMin (l : List Int) : Option Int :=
  l.foldl (fun a x =>
    match a with
    | none => some x
    | some m => if x < m then some x else some m) none

/-- Per-edge implied earliest start of the forward pass (`cpm.rs` lines
111–123): the four link types, unknown types falling back to FS.  This table
is shared verbatim by the source and by claim C1. -/
def depStartDate (cal : Calendar) (fuel : Nat) (dur : Int) (predStart predEnd : Int)
    (linkType : String) (lag : Int) : Int :=
  match linkType with
  | "FS" => addWorkDaysI cal fuel predEnd (1 + lag)
  | "SS" => addWorkDaysI cal fuel predStart lag
  | "FF" => addWorkDaysI cal fuel predEnd (-(get_duration_offset dur) + lag)
  | "SF" => addWorkDaysI cal fuel predStart (-(get_duration_offset dur) + lag)
  | _ => addWorkDaysI cal fuel predEnd (1 + lag)

/-- The dependency fold of the forward pass (`cpm.rs` lines 99–129): edges
whose predecessor is absent from the date map or has an empty start or end are
skipped; otherwise keep the latest implied start. -/
def depFoldStep (cal : Calendar) (fuel : Nat) (dur : Int)
    (dm : List (String × (Option Int × Option Int))) (acc : Option Int)
    (dep : Dependency) : Option Int :=
  match lookupA dm dep.id with
  | none => acc
  | some (ps, pe) =>
    match ps, pe with
    | some psv, some pev =>
      let ds := depStartDate cal fuel dur psv pev dep.linkType dep.lag
      match acc with
      | none => some ds
      | some m => if m < ds then some ds else some m
    | _, _ => acc

def depEarliest (cal : Calendar) (fuel : Nat) (dur : Int)
    (dm : List (String × (Option Int × Option Int))) (deps : List Dependency) : Option Int :=
  deps.foldl (depFoldStep cal fuel dur dm) none

/-- Result of the constraint `match` of the forward pass: either continue with
a (possibly clamped) start candidate, or — `MFO` with a constraint date — set
both dates directly and skip the rest of the task's processing. -/
inductive ConstraintOutcome where
  | proceed (finalStart : Option Int)
  | mfoSet (endDate : Int) (startDate : Int)
deriving DecidableEq

/-- The constraint application of the forward pass (`cpm.rs` lines 131–178). -/
def applyConstraints (cal : Calendar) (fuel : Nat) (today : Int) (t : Task)
    (earliest : Option Int) : ConstraintOutcome :=
  match toLowerStr t.constraintType with
  | "snet" =>
    match t.constraintDate with
    | some c =>
      match earliest with
      | none => .proceed (some c)
      | some v => .proceed (if v < c then some c else some v)
    | none => .proceed earliest
  | "snlt" =>
    match t.constraintDate with
    | some c =>
      match (match earliest with | some v => some v | none => t.start) with
      | some cur => .proceed (if c < cur then some c else earliest)
      | none => .proceed earliest
    | none => .proceed earliest
  | "fnet" =>
    match t.constraintDate with
    | some c =>
      let implied := addWorkDaysI cal fuel c (-(get_duration_offset t.duration))
      match earliest with
      | none => .proceed (some implied)
      | some v => .proceed (if v < implied then some implied else some v)
    | none => .proceed earliest
  | "fnlt" => .proceed earliest
  | "mfo" =>
    match t.constraintDate with
    | some c => .mfoSet c (addWorkDaysI cal fuel c (-(get_duration_offset t.duration)))
    | none => .proceed earliest
  | _ =>
    match earliest with
    | some v => .proceed (some v)
    | none => .proceed (if t.start = none then some today else none)

/-- One leaf task of one forward-pass iteration (`cpm.rs` lines 91–201):
dependency candidate, constraints, fallback to the existing start, update of
start and recomputation of end; the boolean is the task's contribution to the
iteration's `changed` flag (note the `MFO` branch `continue`s without setting
it). -/
def forwardProcessTask (cal : Calendar) (fuel : Nat) (today : Int)
    (dm : List (String × (Option Int × Option Int))) (t : Task) : Task × Bool :=
  let earliest := depEarliest cal fuel t.duration dm t.dependencies
  match applyConstraints cal fuel today t earliest with
  | .mfoSet e s => ({ t with end_ := some e, start := some s }, false)
  | .proceed fs0 =>
    let fs := match fs0 with
      | some v => some v
      | none => t.start
    match fs with
    | none => (t, false)
    | some v =>
      let startChanged : Bool := decide (t.start ≠ some v)
      let t1 := { t with start := some v }
      if 0 ≤ t.duration then
        let newEnd : Option Int := some (addWorkDaysI cal fuel v (get_duration_offset t.duration))
        let endChanged : Bool := decide (t1.end_ ≠ newEnd)
        ({ t1 with end_ := newEnd }, startChanged || endChanged)
      else (t1, startChanged)

/-- One iteration of the forward pass: snapshot the task dates, process every
non-parent task against the snapshot, OR the change flags. -/
def forwardIteration (cal : Calendar) (fuel : Nat) (today : Int) (parentIds : List String)
    (tasks : List Task) : List Task × Bool :=
  let dm := tasks.foldl (fun m t => insertReplace m t.id (t.start, t.end_)) []
  let results := tasks.map (fun t =>
    if parentIds.contains t.id then (t, false) else forwardProcessTask cal fuel today dm t)
  (results.map Prod.fst, results.any Prod.snd)

/-- The `while changed && iterations < MAX_CPM_ITERATIONS` driver shared by
both passes. -/
def runIters (step : List Task → List Task × Bool) : Nat → List Task → List Task
  | 0, ts => ts
  | n + 1, ts =>
    match step ts with
    | (ts', ch) => if ch then runIters step n ts' else ts'

/-- Source `cpm.rs::forward_pass`. -/
def forward_pass (cal : Calendar) (fuel : Nat) (today : Int) (tasks : List Task) : List Task :=
  let parentIds := parentIdsOf tasks
  runIters (forwardIteration cal fuel today parentIds) MAX_CPM_ITERATIONS tasks

/-- Minimum `start` over the children of `pid` that have a non-empty start
(`cpm.rs` lines 242–247). -/
def minChildStart (tasks : List Task) (pid : String) : Option Int :=
  tasks.foldl (fun acc c =>
    if c.parentId = some pid then
      match c.start with
      | some s =>
        match acc with
        | none => some s
        | some m => if s < m then some s else some m
      | none => acc
    else acc) none

/-- Maximum `end` over the children of `pid` that have a non-empty end
(`cpm.rs` lines 248–253). -/
def maxChildEnd (tasks : List Task) (pid : String) : Option Int :=
  tasks.foldl (fun acc c =>
    if c.parentId = some pid then
      match c.end_ with
      | some e =>
        match acc with
        | none => some e
        | some m => if m < e then some e else some m
      | none => acc
    else acc) none

/-- Apply a parent's rolled-up dates (`cpm.rs` lines 261–275): overwrite
start / end only when a child contributed one, then recompute the duration
when both dates ended up non-empty. -/
def applyParentDates (cal : Calendar) (t : Task) (ms me : Option Int) : Task :=
  let t1 := match ms with | some s => { t with start := some s } | none => t
  let t2 := match me with | some e => { t1 with end_ := some e } | none => t1
  match t2.start, t2.end_ with
  | some _, some _ => { t2 with duration := calc_work_days cal t2.start t2.end_ }
  | _, _ => t2

/-- One depth round of the parent rollup: collect the child dates of every
parent at this depth, then apply them. -/
def rollupRound (cal : Calendar) (parentIds : List String) (depths : List (String × Int))
    (tasks : List Task) (depth : Int) : List Task :=
  let parentDates := tasks.foldl (fun m t =>
    if parentIds.contains t.id ∧ lookupA depths t.id = some depth then
      insertReplace m t.id (minChildStart tasks t.id, maxChildEnd tasks t.id)
    else m) []
  tasks.map (fun t =>
    match lookupA parentDates t.id with
    | none => t
    | some (ms, me) => applyParentDates cal t ms me)

/-- The descending depth sequence `(0..=max_depth).rev()`. -/
def depthList (maxDepth : Int) : List Int :=
  if maxDepth < 0 then []
  else ((List.range (maxDepth.toNat + 1)).map Int.ofNat).reverse

/-- Source `cpm.rs::calculate_parent_dates`: roll up summary dates from children,
deepest depth first. -/
def calculate_parent_dates (cal : Calendar) (tasks : List Task) : List Task :=
  let maxDepth := (listMax (tasks.map (fun t => taskDepth tasks t.id))).getD 0
  let parentIds := parentIdsOf tasks
  let depths := tasks.foldl (fun m t => insertReplace m t.id (taskDepth tasks t.id)) []
  (depthList maxDepth).foldl (rollupRound cal parentIds depths) tasks

/-- Latest `end` over non-parent tasks with a non-empty end (`cpm.rs` lines
287–294): the project end used by the backward pass. -/
def projectEndOf (parentIds : List String) (tasks : List Task) : Option Int :=
  tasks.foldl (fun acc t =>
    if parentIds.contains t.id then acc
    else
      match t.end_ with
      | none => acc
      | some e =>
        match acc with
        | none => some e
        | some m => if m < e then some e else some m) none

/-- One leaf task of one backward-pass iteration (`cpm.rs` lines 322–400):
late-finish candidate from the successors (or the project end when there are
none), the FNLT clamp, and the late-start recomputation; the boolean is the
task's contribution to the iteration's `changed` flag.  The source's
`if succ_ls.is_empty()` guard is vacuous here: the fallback `succ_start` was
already checked non-empty and modelled late starts are never the empty
string. -/
def backProcessTask (cal : Calendar) (fuel : Nat)
    (succMap : List (String × List SuccessorEntry)) (parentIds : List String)
    (projectEnd : Int) (lateMap : List (String × (Option Int × Option Int)))
    (dataMap : List (String × (Option Int × Option Int × Int × String × Option Int)))
    (t : Task) : Task × Bool :=
  let succs := (lookupA succMap t.id).getD []
  let step1 : Task × Bool :=
    if succs.isEmpty then
      if t.lateFinish = some projectEnd then (t, false)
      else ({ t with lateFinish := some projectEnd }, true)
    else
      let mlf := succs.foldl (fun acc s =>
        match lookupA dataMap s.id with
        | none => acc
        | some (sstart, _, sdur, _, _) =>
          match sstart with
          | none => acc
          | some sv =>
            if parentIds.contains s.id then acc
            else
              let succLs :=
                match (lookupA lateMap s.id).getD (none, none) with
                | (some ls, _) => ls
                | (none, _) => sv
              let cf :=
                match s.linkType with
                | "FS" => addWorkDaysI cal fuel succLs (-1 - s.lag)
                | "SS" => addWorkDaysI cal fuel succLs (get_duration_offset t.duration - s.lag)
                | "FF" => addWorkDaysI cal fuel succLs (get_duration_offset sdur - s.lag)
                | "SF" => addWorkDaysI cal fuel succLs (-s.lag)
                | _ => addWorkDaysI cal fuel succLs (-1 - s.lag)
              match acc with
              | none => some cf
              | some m => if cf < m then some cf else some m) none
      match mlf with
      | some lf =>
        if t.lateFinish = some lf then (t, false)
        else ({ t with lateFinish := some lf }, true)
      | none => (t, false)
  let t1 := step1.fst
  let step2 : Task × Bool :=
    if toLowerStr t1.constraintType = "fnlt" then
      match t1.constraintDate with
      | some cd =>
        match t1.lateFinish with
        | none => ({ t1 with lateFinish := some cd }, true)
        | some lf =>
          if cd < lf then ({ t1 with lateFinish := some cd }, true) else (t1, false)
      | none => (t1, false)
    else (t1, false)
  let t2 := step2.fst
  let step3 : Task × Bool :=
    match t2.lateFinish with
    | some lf =>
      let newLs := addWorkDaysI cal fuel lf (-(get_duration_offset t2.duration))
      if t2.lateStart = some newLs then (t2, false)
      else ({ t2 with lateStart := some newLs }, true)
    | none => (t2, false)
  (step3.fst, step1.snd || step2.snd || step3.snd)

/-- One iteration of the backward pass: snapshot late dates and task data,
process every non-parent task, OR the change flags. -/
def backwardIteration (cal : Calendar) (fuel : Nat)
    (succMap : List (String × List SuccessorEntry)) (parentIds : List String)
    (projectEnd : Int) (tasks : List Task) : List Task × Bool :=
  let lateMap := tasks.foldl (fun m t => insertReplace m t.id (t.lateStart, t.lateFinish)) []
  let dataMap := tasks.foldl (fun m t =>
    insertReplace m t.id (t.start, t.end_, t.duration, t.constraintType, t.constraintDate)) []
  let results := tasks.map (fun t =>
    if parentIds.contains t.id then (t, false)
    else backProcessTask cal fuel succMap parentIds projectEnd lateMap dataMap t)
  (results.map Prod.fst, results.any Prod.snd)

/-- Source `cpm.rs::backward_pass`: returns immediately when no non-parent task has a
non-empty end. -/
def backward_pass (cal : Calendar) (fuel : Nat)
    (succMap : List (String × List SuccessorEntry)) (tasks : List Task) : List Task :=
  let parentIds := parentIdsOf tasks
  match projectEndOf parentIds tasks with
  | none => tasks
  | some pe => runIters (backwardIteration cal fuel succMap parentIds pe) MAX_CPM_ITERATIONS tasks

/-- The total float of a leaf (`cpm.rs` lines 430–439): signed working-day
difference from start to late start, 0 when either is missing. -/
def leafTotalFloat (cal : Calendar) (t : Task) : Int :=
  match t.lateStart with
  | some ls =>
    match t.start with
    | some s => calc_work_days_difference cal (some s) (some ls)
    | none => 0
  | none => 0

/-- The minimum free-float candidate over the successor edges
(`cpm.rs` lines 451–475). -/
def leafMinFreeFloat (cal : Calendar)
    (dataMap : List (String × (Option Int × Option Int × Bool)))
    (succs : List SuccessorEntry) (t : Task) : Option Int :=
  succs.foldl (fun acc s =>
    match lookupA dataMap s.id with
    | none => acc
    | some (sstart, send, sIsParent) =>
      match sstart with
      | none => acc
      | some _ =>
        if sIsParent then acc
        else
          let ff :=
            match s.linkType with
            | "FS" => calc_work_days_difference cal t.end_ sstart - 1 - s.lag
            | "SS" => calc_work_days_difference cal t.start sstart - s.lag
            | "FF" => calc_work_days_difference cal t.end_ send - s.lag
            | "SF" => calc_work_days_difference cal t.start send - s.lag
            | _ => calc_work_days_difference cal t.end_ sstart - 1 - s.lag
          match acc with
          | none => some ff
          | some m => if ff < m then some ff else some m) none

/-- Float computation for one leaf task (`cpm.rs` lines 422–484): total float
from start to late start, free float as the clamped minimum over successor
edges (total float when there are no usable successors).  The free-float
formulas read the task's own `start`/`end`, unchanged by the total-float
write just before, so they are passed the updated record `t1`. -/
def floatLeafTask (cal : Calendar)
    (succMap : List (String × List SuccessorEntry))
    (dataMap : List (String × (Option Int × Option Int × Bool))) (t : Task) : Task :=
  let t1 := { t with totalFloatDays := some (leafTotalFloat cal t) }
  let succs := (lookupA succMap t1.id).getD []
  if succs.isEmpty then { t1 with freeFloatDays := t1.totalFloatDays }
  else
    let mff := leafMinFreeFloat cal dataMap succs t1
    let tfv := t1.totalFloatDays.getD 0
    { t1 with freeFloatDays :=
        match mff with
        | some m => some (min (max m 0) tfv)
        | none => some tfv }

/-- The `child_floats` collection and minimum of the parent-float rollup
(`cpm.rs` lines 508–521). -/
def parentMinFloat (tasks : List Task) (pid : String) : Option Int :=
  let childFloats := tasks.foldl (fun l c =>
    if c.parentId = some pid then
      match c.totalFloatDays with
      | some tf => l ++ [tf]
      | none => l
    else l) []
  if childFloats.isEmpty then some 0 else listMin childFloats

/-- One depth round of the parent-float rollup (`cpm.rs` lines 496–535):
a parent's total float is the minimum child total float (0 when no child has
one), its free float is 0. -/
def floatRound (parentIds : List String) (depths : List (String × Int))
    (tasks : List Task) (depth : Int) : List Task :=
  let parentFloats := tasks.foldl (fun m t =>
    if parentIds.contains t.id ∧ lookupA depths t.id = some depth then
      insertReplace m t.id (parentMinFloat tasks t.id)
    else m) []
  tasks.map (fun t =>
    match lookupA parentFloats t.id with
    | none => t
    | some mf => { t with totalFloatDays := mf, freeFloatDays := some 0 })

/-- Source `cpm.rs::calculate_float`: leaf floats first, then parent floats from
children, deepest depth first. -/
def calculate_float (cal : Calendar)
    (succMap : List (String × List SuccessorEntry)) (tasks : List Task) : List Task :=
  let parentIds := parentIdsOf tasks
  let dataMap := tasks.foldl (fun m t =>
    insertReplace m t.id (t.start, t.end_, parentIds.contains t.id)) []
  let ts1 := tasks.map (fun t =>
    if parentIds.contains t.id then t else floatLeafTask cal succMap dataMap t)
  let maxDepth := (listMax (ts1.map (fun t => taskDepth ts1 t.id))).getD 0
  let depths := ts1.foldl (fun m t => insertReplace m t.id (taskDepth ts1 t.id)) []
  (depthList maxDepth).foldl (floatRound parentIds depths) ts1

/-- Whether some direct child of `pid` is critical (`cpm.rs` lines 577–579). -/
def hasCriticalChild (tasks : List Task) (pid : String) : Bool :=
  tasks.any (fun c => decide (c.parentId = some pid) && c.isCritical.getD false)

/-- One depth round of parent criticality (`cpm.rs` lines 565–590): a parent
is critical iff a direct child is. -/
def criticalRound (parentIds : List String) (depths : List (String × Int))
    (tasks : List Task) (depth : Int) : List Task :=
  let parentCritical := tasks.foldl (fun m t =>
    if parentIds.contains t.id ∧ lookupA depths t.id = some depth then
      insertReplace m t.id (hasCriticalChild tasks t.id)
    else m) []
  tasks.map (fun t =>
    match lookupA parentCritical t.id with
    | none => t
    | some b => { t with isCritical := some b })

/-- Source `cpm.rs::mark_critical_path`: leaves are critical iff their total float is
non-positive, parents iff a direct child is critical (deepest first). -/
def mark_critical_path (tasks : List Task) : List Task :=
  let parentIds := parentIdsOf tasks
  let ts1 := tasks.map (fun t =>
    if parentIds.contains t.id then { t with isCritical := some false }
    else
      let crit : Bool :=
        match t.totalFloatDays with
        | some tf => decide (tf ≤ 0)
        | none => false
      { t with isCritical := some crit })
  let maxDepth := (listMax (ts1.map (fun t => taskDepth ts1 t.id))).getD 0
  let depths := ts1.foldl (fun m t => insertReplace m t.id (taskDepth ts1 t.id)) []
  (depthList maxDepth).foldl (criticalRound parentIds depths) ts1

/-- Source `types.rs::CPMStats` without the wall-clock `calc_time` (real time is not
modelled; `cpm.rs::calculate` always sets `error` to `None`). -/
structure CPMStats where
  taskCount : Int
  criticalCount : Int
  projectEnd : Option Int
  duration : Int
  error : Option String
deriving DecidableEq

/-- Source `types.rs::CPMResult`. -/
structure CPMResult where
  tasks : List Task
  stats : CPMStats
deriving DecidableEq

/-- Source `cpm.rs::calculate`: the full pipeline plus project statistics.  `today`
is the date the source obtains from the wall clock via `date_utils::today()`,
made an explicit input here. -/
def calculate (cal : Calendar) (fuel : Nat) (today : Int) (tasks : List Task) : CPMResult :=
  if tasks.isEmpty then
    { tasks := [],
      stats := { taskCount := 0, criticalCount := 0, projectEnd := none, duration := 0,
                 error := none } }
  else
    let succMap := build_successor_map tasks
    let ts1 := forward_pass cal fuel today tasks
    let ts2 := calculate_parent_dates cal ts1
    let ts3 := backward_pass cal fuel succMap ts2
    let ts4 := calculate_float cal succMap ts3
    let ts5 := mark_critical_path ts4
    let parentIds := parentIdsOf ts5
    let projectEnd := listMax ((ts5.filter (fun t =>
      decide (t.end_ ≠ none) && !(parentIds.contains t.id))).filterMap (fun t => t.end_))
    let projectStart := listMin ((ts5.filter (fun t =>
      decide (t.start ≠ none) && !(parentIds.contains t.id))).filterMap (fun t => t.start))
    let duration :=
      match projectStart, projectEnd with
      | some ps, some pe => calc_work_days cal (some ps) (some pe)
      | _, _ => 0
    let criticalCount :=
      (ts5.filter (fun t => t.isCritical.getD false && !(parentIds.contains t.id))).length
    { tasks := ts5,
      stats := { taskCount := (tasks.length : Int), criticalCount := (criticalCount : Int),
                 projectEnd := projectEnd, duration := duration, error := none } }

/-- One typed field update of `engine_state.rs::ProjectState::update_task`:
each JSON key/value pair whose key the source recognises and whose value has
the expected JSON type becomes one of these constructors; pairs with an
unknown key — or a value of the wrong type, which the source silently skips —
are `unknownKey`. -/
inductive FieldUpdate where
  | setName (v : String)
  | setDuration (v : Int)
  | setStart (v : Option Int)
  | setEnd (v : Option Int)
  | setProgress (v : Int)
  | setConstraintType (v : String)
  | setConstraintDate (v : Option Int)
  | setNotes (v : String)
  | setParentId (v : Option String)
  | setLevel (v : Int)
  | setSortKey (v : String)
  | setDependencies (v : List Dependency)
  | setActualStart (v : Option String)
  | setActualFinish (v : Option String)
  | setRemainingDuration (v : Int)
  | setBaselineStart (v : Option String)
  | setBaselineFinish (v : Option String)
  | setBaselineDuration (v : Int)
  | setWbs (v : Option String)
  | unknownKey
deriving DecidableEq

/-- Apply one recognised field update (the `match key.as_str()` arms of
`engine_state.rs` lines 50–147; the `i64 → i32` bounds checks are not
modelled, integers being unbounded here). -/
def applyUpdate (t : Task) : FieldUpdate → Task
  | .setName v => { t with name := v }
  | .setDuration v => { t with duration := v }
  | .setStart v => { t with start := v }
  | .setEnd v => { t with end_ := v }
  | .setProgress v => { t with progress := v }
  | .setConstraintType v => { t with constraintType := v }
  | .setConstraintDate v => { t with constraintDate := v }
  | .setNotes v => { t with notes := v }
  | .setParentId v => { t with parentId := v }
  | .setLevel v => { t with level := v }
  | .setSortKey v => { t with sortKey := v }
  | .setDependencies v => { t with dependencies := v }
  | .setActualStart v => { t with actualStart := v }
  | .setActualFinish v => { t with actualFinish := v }
  | .setRemainingDuration v => { t with remainingDuration := some v }
  | .setBaselineStart v => { t with baselineStart := v }
  | .setBaselineFinish v => { t with baselineFinish := v }
  | .setBaselineDuration v => { t with baselineDuration := some v }
  | .setWbs v => { t with wbs := v }
  | .unknownKey => t

/-- Source `engine_state.rs::ProjectState`: tasks indexed by id, iteration order,
calendar, initialization flag. -/
structure ProjectState where
  tasks : List (String × Task)
  taskOrder : List String
  calendar : Option Calendar
  initialized : Bool
deriving DecidableEq

/-- Association-list update of the value at an existing key (models the
mutation through `HashMap::get_mut`; a missing key changes nothing). -/
def updateAt (m : List (String × Task)) (k : String) (f : Task → Task) : List (String × Task) :=
  modifyA m k f

/-- Rust `HashMap::remove` (returns the removed value alongside the new map). -/
def removeA : List (String × Task) → String → Option Task × List (String × Task)
  | [], _ => (none, [])
  | (k', v) :: rest, k =>
    if k' = k then (some v, rest)
    else
      let r := removeA rest k
      (r.fst, (k', v) :: r.snd)

/-- Source `engine_state.rs::ProjectState::update_task`: apply the partial update to
the task with the given id, or return an error (and an unchanged state) when
no task has that id. -/
def ProjectState.update_task (st : ProjectState) (id : String)
    (updates : List FieldUpdate) : Except String Unit × ProjectState :=
  match lookupA st.tasks id with
  | some _ =>
    (Except.ok (),
     { st with tasks := updateAt st.tasks id (fun t => updates.foldl applyUpdate t) })
  | none => (Except.error ("Task " ++ id ++ " not found"), st)

/-- Source `engine_state.rs::ProjectState::delete_task`: remove the task from the map
and its id from the order; error when the map held no such task (the order is
then left untouched, `retain` not being reached). -/
def ProjectState.delete_task (st : ProjectState) (id : String) :
    Except String Unit × ProjectState :=
  let r := removeA st.tasks id
  match r.fst with
  | none => (Except.error ("Task " ++ id ++ " not found"), { st with tasks := r.snd })
  | some _ =>
    (Except.ok (),
     { st with tasks := r.snd, taskOrder := st.taskOrder.filter (fun i => i ≠ id) })

/-- Source `commands.rs::update_engine_task`: reject when the engine was never
initialized, else delegate to the state container. -/
def update_engine_task (st : ProjectState) (id : String) (updates : List FieldUpdate) :
    Except String Unit × ProjectState :=
  if st.initialized then st.update_task id updates
  else (Except.error "Engine not initialized", st)

/-- Source `commands.rs::delete_engine_task`. -/
def delete_engine_task (st : ProjectState) (id : String) :
    Except String Unit × ProjectState :=
  if st.initialized then st.delete_task id
  else (Except.error "Engine not initialized", st)

/-- A task record with neutral defaults, for concrete examples. -/
def mkTask (id : String) : Task :=
  { id := id, name := "", parentId := none, sortKey := "", rowType := none, level := 0,
    start := none, end_ := none, duration := 1, constraintType := "", constraintDate := none,
    schedulingMode := "Auto", dependencies := [], progress := 0, notes := "",
    isCritical := none, lateStart := none, lateFinish := none, totalFloatDays := none,
    freeFloatDays := none, collapsed := none, actualStart := none, actualFinish := none,
    remainingDuration := none, baselineStart := none, baselineFinish := none,
    baselineDuration := none, wbs := none, tradePartnerIds := none }

/-- FS dependency on task A with zero lag, reused by the scenario examples. -/
def depFSA : List Dependency := [{ id := "A", linkType := "FS", lag := 0 }]

/-- Specification scenario 1: A (3 days from Mon 2024-01-01), B (2 days, FS on
A): A ends Wed 3rd, B runs Thu 4th to Fri 5th, both critical, project spans 5
working days. -/
example :
    ((calculate calMonFri 100 1
        [{ (mkTask "A") with duration := 3, start := some 1 },
         { (mkTask "B") with duration := 2, dependencies := depFSA }]).tasks.map
      (fun t => (t.id, t.start, t.end_, t.isCritical))) =
    [("A", some 1, some 3, some true), ("B", some 4, some 5, some true)] := by decide

example :
    (calculate calMonFri 100 1
        [{ (mkTask "A") with duration := 3, start := some 1 },
         { (mkTask "B") with duration := 2, dependencies := depFSA }]).stats =
    { taskCount := 2, criticalCount := 2, projectEnd := some 5, duration := 5,
      error := none } := by decide

/-- Specification scenario 2 (FS across a weekend): A 2 days from Thu 4th ends
Fri 5th; B (1 day) starts and ends Mon 8th. -/
example :
    ((calculate calMonFri 100 4
        [{ (mkTask "A") with duration := 2, start := some 4 },
         { (mkTask "B") with duration := 1, dependencies := depFSA }]).tasks.map
      (fun t => (t.id, t.start, t.end_))) =
    [("A", some 4, some 5), ("B", some 8, some 8)] := by decide

/-- Specification scenario 4 (milestone successor): M (duration 0) lands one
FS step after A's finish, with start = end, on the critical path. -/
example :
    ((calculate calMonFri 100 1
        [{ (mkTask "A") with duration := 4, start := some 1 },
         { (mkTask "M") with duration := 0, dependencies := depFSA }]).tasks.map
      (fun t => (t.id, t.start, t.end_, t.isCritical))) =
    [("A", some 1, some 4, some true), ("M", some 5, some 5, some true)] := by decide

/-- Specification scenario 6 (parent rollup): children 2024-01-01..03 and
02..08 give the parent 01..08, 6 working days. -/
example :
    ((calculate_parent_dates calMonFri
        [mkTask "P",
         { (mkTask "C1") with parentId := some "P", start := some 1, end_ := some 3 },
         { (mkTask "C2") with parentId := some "P", start := some 2, end_ := some 8 }]).map
      (fun t => (t.id, t.start, t.end_, t.duration))) =
    [("P", some 1, some 8, 6), ("C1", some 1, some 3, 1), ("C2", some 2, some 8, 1)] := by
  decide

/-! ## Interval counting helpers -/

/-- The days `a, a+1, ..., a+n-1`. -/
def intRange (a : Int) : Nat → List Int
  | 0 => []
  | n + 1 => a :: intRange (a + 1) n

/-- Number of working days in the inclusive interval `lo .. hi`. -/
def workingDaysIn (cal : Calendar) (lo hi : Int) : Nat :=
  (intRange lo (hi + 1 - lo).toNat).countP (fun d => is_work_day d cal)

lemma countWorkAux_eq_countP (cal : Calendar) :
    ∀ (n : Nat) (a : Int),
      countWorkAux cal a n = (intRange a n).countP (fun d => is_work_day d cal) := by
  intro n
  induction n with
  | zero => intro a; simp [countWorkAux, intRange]
  | succ k ih =>
    intro a
    rw [intRange, List.countP_cons, ← ih]
    simp only [countWorkAux]
    by_cases h : is_work_day a cal <;> (simp [h]; try omega)

/-- C4 (amended): `calc_work_days_difference a b` is 0 when `a = b`; the count
of working days in the half-open interval `(a, b]` when `a < b`; and the
negated count of working days in the half-open interval `(b, a]` — not
`[b, a)` as claimed — when `b < a`. -/
theorem claim_C4_amended (cal : Calendar) (a b : Int) :
    calc_work_days_difference cal (some a) (some b) =
      if a = b then 0
      else if a < b then (workingDaysIn cal (a + 1) b : Int)
      else -(workingDaysIn cal (b + 1) a : Int) := by
  unfold workingDaysIn
  rcases lt_trichotomy a b with h | h | h
  · have h1 : a ≠ b := ne_of_lt h
    simp only [calc_work_days_difference, if_neg h1, if_pos h]
    rw [countWorkAux_eq_countP]
    have he : b + 1 - (a + 1) = b - a := by ring
    rw [he]
  · simp [calc_work_days_difference, h]
  · have h1 : a ≠ b := ne_of_gt h
    have h2 : ¬ a < b := by omega
    simp only [calc_work_days_difference, if_neg h1, if_neg h2]
    rw [countWorkAux_eq_countP]
    have he : a + 1 - (b + 1) = a - b := by ring
    rw [he]

/-- C4 counterexample: with the Monday–Friday calendar, `a` = Monday
2024-01-08 (day 8) and `b` = Sunday 2024-01-07 (day 7), the source returns
−1 (it counts Monday, the interval `(b, a]`), while the claimed half-open
interval `[b, a) = {Sunday}` holds 0 working days, so the claim would give 0. -/
theorem claim_C4_counterexample :
    calc_work_days_difference calMonFri (some 8) (some 7) = -1 ∧
    workingDaysIn calMonFri 7 7 = 0 := by decide

/-! ## Claim C3: working-day landing -/

lemma snapF_some_work (cal : Calendar) (dir : Int) :
    ∀ (fuel : Nat) (d r : Int), snapF cal dir fuel d = some r → is_work_day r cal = true := by
  intro fuel
  induction fuel with
  | zero => intro d r h; simp [snapF] at h
  | succ k ih =>
    intro d r h
    by_cases hw : is_work_day d cal
    · simp [snapF, hw] at h
      subst h
      exact hw
    · simp [snapF, hw] at h
      exact ih _ _ h

/-- The concrete task of the C3 counterexample: no dependencies, no
constraint, input start Saturday 2024-01-06 (day 6). -/
def c3Task : Task := { (mkTask "a") with start := some 6 }

/-- C3 counterexample: a leaf with no dependencies and no constraint keeps its
non-working input start (Saturday, day 6) through a full `calculate` — the
fallback `final_start = Some(task.start)` is applied verbatim — so not every
non-empty `start` lands on a working day (the claimed P7 fails), even though
`end`, `late_start` and `late_finish` here do. -/
theorem claim_C3_counterexample :
    ((calculate calMonFri 100 9 [c3Task]).tasks.map
      (fun t => (t.start, t.end_, t.lateStart, t.lateFinish))) =
      [(some 6, some 8, some 8, some 8)] ∧
    is_work_day 6 calMonFri = false := by decide

/-- C3 (amended): every date that `add_work_days` itself produces (on a valid
input date, when its loops terminate) falls on a working day of the calendar —
both the `days = 0` snap and the walk-then-snap path end in the snapping loop,
which only ever stops on a working day.  Dates the passes set verbatim
(a retained input `start`, a constraint date under SNET/SNLT/MFO/FNLT,
`today()`, an inherited project end) need not land on working days, as the
counterexample shows. -/
theorem claim_C3_amended (cal : Calendar) (fuel : Nat) (d n r : Int)
    (h : addWorkDaysOpt cal fuel d n = some r) : is_work_day r cal = true := by
  unfold addWorkDaysOpt at h
  by_cases h0 : n = 0
  · simp only [h0, if_pos rfl] at h
    exact snapF_some_work cal 1 fuel d r h
  · simp only [h0, if_neg h0] at h
    rcases hw : walkF cal (if 0 ≤ n then 1 else -1) fuel n.natAbs d with _ | e
    · rw [hw] at h; simp at h
    · rw [hw] at h
      exact snapF_some_work cal _ fuel e r h

/-- C3 witness: adding 0 working days to Saturday (day 6) on the Monday–Friday
calendar succeeds and lands on Monday (day 8), a working day. -/
theorem claim_C3_witness :
    addWorkDaysOpt calMonFri 100 6 0 = some 8 ∧ is_work_day 8 calMonFri = true :=
  ⟨by decide, claim_C3_amended calMonFri 100 6 0 8 (by decide)⟩

/-! ## Claim C10: termination of add_work_days -/

/-- The termination precondition of claim C10: the calendar's working-day list
holds at least one weekday index in `0..=6`. -/
def calOk (cal : Calendar) : Bool :=
  cal.workingDays.any (fun w => decide (0 ≤ w) && decide (w < 7))

lemma foldl_max_init_le : ∀ (l : List Int) (i : Int), i ≤ l.foldl max i := by
  intro l
  induction l with
  | nil => intro i; simp
  | cons a l ih =>
    intro i
    calc i ≤ max i a := le_max_left _ _
    _ ≤ (a :: l).foldl max i := by simpa using ih (max i a)

lemma mem_le_foldl_max : ∀ (l : List Int) (i x : Int), x ∈ l → x ≤ l.foldl max i := by
  intro l
  induction l with
  | nil => intro i x hx; cases hx
  | cons a l ih =>
    intro i x hx
    rcases List.mem_cons.mp hx with h | h
    · subst h
      calc x ≤ max i x := le_max_right _ _
      _ ≤ (x :: l).foldl max i := by simpa using foldl_max_init_le l (max i x)
    · simpa using ih (max i a) x h

lemma foldl_min_init_ge : ∀ (l : List Int) (i : Int), l.foldl min i ≤ i := by
  intro l
  induction l with
  | nil => intro i; simp
  | cons a l ih =>
    intro i
    calc (a :: l).foldl min i = l.foldl min (min i a) := by simp
    _ ≤ min i a := ih (min i a)
    _ ≤ i := min_le_left _ _

lemma foldl_min_le_mem : ∀ (l : List Int) (i x : Int), x ∈ l → l.foldl min i ≤ x := by
  intro l
  induction l with
  | nil => intro i x hx; cases hx
  | cons a l ih =>
    intro i x hx
    rcases List.mem_cons.mp hx with h | h
    · subst h
      calc (x :: l).foldl min i = l.foldl min (min i x) := by simp
      _ ≤ min i x := foldl_min_init_ge l (min i x)
      _ ≤ x := min_le_right _ _
    · simpa using ih (min i a) x h

/-- Largest exception key (0 when there are none); every exception key is at
most this. -/
def excMaxKey (cal : Calendar) : Int := (cal.exceptions.map Prod.fst).foldl max 0

/-- Smallest exception key (0 when there are none). -/
def excMinKey (cal : Calendar) : Int := (cal.exceptions.map Prod.fst).foldl min 0

lemma lookupExc_none_of_all_ne :
    ∀ (excs : List (Int × Bool)) (x : Int), (∀ p ∈ excs, p.1 ≠ x) → lookupExc excs x = none := by
  intro excs
  induction excs with
  | nil => intro x _; rfl
  | cons p l ih =>
    intro x h
    obtain ⟨k, b⟩ := p
    have hk : k ≠ x := h (k, b) (List.mem_cons_self _ _)
    simp only [lookupExc, if_neg hk]
    exact ih x (fun q hq => h q (List.mem_cons_of_mem _ hq))

lemma isWork_of_pattern (cal : Calendar) (x w : Int) (hmem : w ∈ cal.workingDays)
    (hlook : lookupExc cal.exceptions x = none) (hmod : x % 7 = w) :
    is_work_day x cal = true := by
  unfold is_work_day
  rw [hlook, hmod]
  exact List.elem_iff.mpr hmem

lemma calOk_spec (cal : Calendar) (hok : calOk cal = true) :
    ∃ w, w ∈ cal.workingDays ∧ 0 ≤ w ∧ w < 7 := by
  obtain ⟨w, hmem, hw⟩ := List.any_eq_true.mp hok
  refine ⟨w, hmem, ?_, ?_⟩ <;> simp_all

lemma exists_workday_ge (cal : Calendar) (hok : calOk cal = true) (d : Int) :
    ∃ x : Int, d ≤ x ∧ is_work_day x cal = true := by
  obtain ⟨w, hmem, hw0, hw7⟩ := calOk_spec cal hok
  set M : Int := max d (excMaxKey cal + 1) with hM
  set x : Int := M + ((w - M) % 7) with hx
  have h0 : 0 ≤ (w - M) % 7 := Int.emod_nonneg _ (by norm_num)
  have h7 : (w - M) % 7 < 7 := Int.emod_lt_of_pos _ (by norm_num)
  have hmod : x % 7 = w := by omega
  have hgt : excMaxKey cal < x := by
    have : excMaxKey cal + 1 ≤ M := le_max_right _ _
    omega
  have hlook : lookupExc cal.exceptions x = none := by
    refine lookupExc_none_of_all_ne _ _ (fun p hp => ?_)
    have : p.1 ≤ excMaxKey cal :=
      mem_le_foldl_max _ 0 p.1 (List.mem_map.mpr ⟨p, hp, rfl⟩)
    omega
  have hdx : d ≤ x := by
    have : d ≤ M := le_max_left _ _
    omega
  exact ⟨x, hdx, isWork_of_pattern cal x w hmem hlook hmod⟩

lemma exists_workday_le (cal : Calendar) (hok : calOk cal = true) (d : Int) :
    ∃ x : Int, x ≤ d ∧ is_work_day x cal = true := by
  obtain ⟨w, hmem, hw0, hw7⟩ := calOk_spec cal hok
  set M : Int := min d (excMinKey cal - 1) with hM
  set x : Int := M - ((M - w) % 7) with hx
  have h0 : 0 ≤ (M - w) % 7 := Int.emod_nonneg _ (by norm_num)
  have h7 : (M - w) % 7 < 7 := Int.emod_lt_of_pos _ (by norm_num)
  have hmod : x % 7 = w := by omega
  have hlt : x < excMinKey cal := by
    have : M ≤ excMinKey cal - 1 := min_le_right _ _
    omega
  have hlook : lookupExc cal.exceptions x = none := by
    refine lookupExc_none_of_all_ne _ _ (fun p hp => ?_)
    have : excMinKey cal ≤ p.1 :=
      foldl_min_le_mem _ 0 p.1 (List.mem_map.mpr ⟨p, hp, rfl⟩)
    omega
  have hdx : x ≤ d := by
    have : M ≤ d := min_le_left _ _
    omega
  exact ⟨x, hdx, isWork_of_pattern cal x w hmem hlook hmod⟩

lemma snapF_succeeds (cal : Calendar) (dir : Int) :
    ∀ (k : Nat) (d : Int), is_work_day (d + dir * (k : Int)) cal = true →
      ∃ fuel r, snapF cal dir fuel d = some r := by
  intro k
  induction k with
  | zero =>
    intro d hw
    have hw' : is_work_day d cal = true := by simpa using hw
    exact ⟨1, d, by simp [snapF, hw']⟩
  | succ k ih =>
    intro d hw
    by_cases h : is_work_day d cal
    · exact ⟨1, d, by simp [snapF, h]⟩
    · have hw' : is_work_day ((d + dir) + dir * (k : Int)) cal = true := by
        have he : (d + dir) + dir * (k : Int) = d + dir * ((k : Nat) + 1 : Int) := by ring
        rw [he]
        simpa using hw
      obtain ⟨f, r, hf⟩ := ih (d + dir) hw'
      exact ⟨f + 1, r, by simp [snapF, h]; exact hf⟩

lemma snapF_mono (cal : Calendar) (dir : Int) :
    ∀ (f₁ f₂ : Nat) (d r : Int), f₁ ≤ f₂ → snapF cal dir f₁ d = some r →
      snapF cal dir f₂ d = some r := by
  intro f₁
  induction f₁ with
  | zero => intro f₂ d r _ h; simp [snapF] at h
  | succ k ih =>
    intro f₂ d r hle h
    cases f₂ with
    | zero => omega
    | succ m =>
      by_cases hw : is_work_day d cal
      · simp [snapF, hw] at h ⊢; exact h
      · simp [snapF, hw] at h ⊢
        exact ih m (d + dir) r (by omega) h

lemma walkF_mono (cal : Calendar) (dir : Int) :
    ∀ (f₁ f₂ : Nat) (rem : Nat) (d e : Int), f₁ ≤ f₂ → walkF cal dir f₁ rem d = some e →
      walkF cal dir f₂ rem d = some e := by
  intro f₁
  induction f₁ with
  | zero =>
    intro f₂ rem d e _ h
    cases rem with
    | zero => simpa [walkF] using h
    | succ r => simp [walkF] at h
  | succ k ih =>
    intro f₂ rem d e hle h
    cases rem with
    | zero => simpa [walkF] using h
    | succ r =>
      cases f₂ with
      | zero => omega
      | succ m =>
        simp only [walkF] at h ⊢
        exact ih m _ _ e (by omega) h

lemma walkF_step_succeeds (cal : Calendar) (dir : Int) (r : Nat)
    (hr : ∀ d : Int, ∃ fuel e, walkF cal dir fuel r d = some e) :
    ∀ (k : Nat) (d : Int), is_work_day (d + dir * ((k : Int) + 1)) cal = true →
      ∃ fuel e, walkF cal dir fuel (r + 1) d = some e := by
  intro k
  induction k with
  | zero =>
    intro d hw
    have hw' : is_work_day (d + dir) cal = true := by
      have he : d + dir * ((0 : Int) + 1) = d + dir := by ring
      simpa [he] using hw
    obtain ⟨f, e, hf⟩ := hr (d + dir)
    exact ⟨f + 1, e, by simp [walkF, hw']; exact hf⟩
  | succ k ih =>
    intro d hw
    by_cases hw1 : is_work_day (d + dir) cal
    · obtain ⟨f, e, hf⟩ := hr (d + dir)
      exact ⟨f + 1, e, by simp [walkF, hw1]; exact hf⟩
    · have hw' : is_work_day ((d + dir) + dir * ((k : Int) + 1)) cal = true := by
        have he : (d + dir) + dir * ((k : Int) + 1) = d + dir * (((k : Nat) + 1 : Int) + 1) := by
          ring
        rw [he]
        simpa using hw
      obtain ⟨f, e, hf⟩ := ih (d + dir) hw'
      exact ⟨f + 1, e, by simp [walkF, hw1]; exact hf⟩

lemma walkF_succeeds (cal : Calendar) (dir : Int)
    (hgap : ∀ d : Int, ∃ k : Nat, is_work_day (d + dir * (k : Int)) cal = true) :
    ∀ (rem : Nat) (d : Int), ∃ fuel e, walkF cal dir fuel rem d = some e := by
  intro rem
  induction rem with
  | zero => intro d; exact ⟨0, d, rfl⟩
  | succ r ih =>
    intro d
    obtain ⟨k, hk⟩ := hgap (d + dir)
    have hk' : is_work_day (d + dir * ((k : Int) + 1)) cal = true := by
      have he : d + dir * ((k : Int) + 1) = (d + dir) + dir * (k : Int) := by ring
      rw [he]
      exact hk
    exact walkF_step_succeeds cal dir r ih k d hk'

/-- C10: on any calendar whose working-day list contains a weekday index in
`0..=6`, `add_work_days` terminates for every valid date and every signed
day count — there is enough fuel for both the walking and the snapping loop
to complete.  (Dates are idealised as unbounded day ordinals; the finitely
many calendar exceptions cannot exhaust the weekly pattern.) -/
theorem claim_C10_terminates (cal : Calendar) (hok : calOk cal = true) (d n : Int) :
    ∃ fuel r, addWorkDaysOpt cal fuel d n = some r := by
  have hgap1 : ∀ d0 : Int, ∃ k : Nat, is_work_day (d0 + 1 * (k : Int)) cal = true := by
    intro d0
    obtain ⟨x, hle, hw⟩ := exists_workday_ge cal hok d0
    refine ⟨(x - d0).toNat, ?_⟩
    have he : d0 + 1 * (((x - d0).toNat : Nat) : Int) = x := by omega
    rw [he]
    exact hw
  have hgapm : ∀ d0 : Int, ∃ k : Nat, is_work_day (d0 + (-1) * (k : Int)) cal = true := by
    intro d0
    obtain ⟨x, hle, hw⟩ := exists_workday_le cal hok d0
    refine ⟨(d0 - x).toNat, ?_⟩
    have he : d0 + (-1) * (((d0 - x).toNat : Nat) : Int) = x := by omega
    rw [he]
    exact hw
  by_cases h0 : n = 0
  · obtain ⟨k, hk⟩ := hgap1 d
    obtain ⟨f, r, hf⟩ := snapF_succeeds cal 1 k d hk
    exact ⟨f, r, by simp [addWorkDaysOpt, h0]; exact hf⟩
  · have hgap : ∀ d0 : Int, ∃ k : Nat,
        is_work_day (d0 + (if 0 ≤ n then 1 else -1) * (k : Int)) cal = true := by
      by_cases hs : 0 ≤ n
      · simpa [hs] using hgap1
      · simpa [hs] using hgapm
    obtain ⟨f1, e, hwalk⟩ := walkF_succeeds cal _ hgap n.natAbs d
    obtain ⟨k, hk⟩ := hgap e
    obtain ⟨f2, r, hsnap⟩ := snapF_succeeds cal _ k e hk
    refine ⟨max f1 f2, r, ?_⟩
    have hwalk' : walkF cal (if 0 ≤ n then 1 else -1) (max f1 f2) n.natAbs d = some e :=
      walkF_mono cal _ f1 (max f1 f2) _ d e (le_max_left _ _) hwalk
    have hsnap' : snapF cal (if 0 ≤ n then 1 else -1) (max f1 f2) e = some r :=
      snapF_mono cal _ f2 (max f1 f2) e r (le_max_right _ _) hsnap
    simp only [addWorkDaysOpt, if_neg h0]
    rw [hwalk']
    exact hsnap'

/-- C10 witness: the Monday–Friday calendar satisfies the precondition and the
walk from Saturday (day 6) by 5 working days completes. -/
theorem claim_C10_witness :
    calOk calMonFri = true ∧ ∃ fuel r, addWorkDaysOpt calMonFri fuel 6 5 = some r :=
  ⟨by decide, claim_C10_terminates calMonFri (by decide) 6 5⟩

/-! ## Claim C1: forward-pass dependency candidate -/

/-- The contribution of one dependency edge, as the specification words it:
for a predecessor present in the date map with non-empty start and end, the
implied earliest start from the link-type table (FS `end+1+λ`, SS `start+λ`,
FF `end−off+λ`, SF `start−off+λ`, unknown types as FS — `depStartDate` is
that table verbatim); otherwise no contribution. -/
def depContribution (cal : Calendar) (fuel : Nat) (dur : Int)
    (dm : List (String × (Option Int × Option Int))) (dep : Dependency) : Option Int :=
  match lookupA dm dep.id with
  | some (some ps, some pe) => some (depStartDate cal fuel dur ps pe dep.linkType dep.lag)
  | _ => none

lemma omax_assoc (a b c : Option Int) : omax (omax a b) c = omax a (omax b c) := by
  cases a <;> cases b <;> cases c <;> simp [omax, max_assoc]

lemma foldl_omax_shift :
    ∀ (l : List Int) (a b : Option Int),
      l.foldl (fun x y => omax x (some y)) (omax a b) =
        omax a (l.foldl (fun x y => omax x (some y)) b) := by
  intro l
  induction l with
  | nil => intro a b; rfl
  | cons x l ih =>
    intro a b
    calc (x :: l).foldl (fun x y => omax x (some y)) (omax a b)
        = l.foldl (fun x y => omax x (some y)) (omax (omax a b) (some x)) := rfl
    _ = l.foldl (fun x y => omax x (some y)) (omax a (omax b (some x))) := by
        rw [omax_assoc]
    _ = omax a (l.foldl (fun x y => omax x (some y)) (omax b (some x))) := ih _ _
    _ = omax a ((x :: l).foldl (fun x y => omax x (some y)) b) := rfl

lemma depFoldStep_eq_omax (cal : Calendar) (fuel : Nat) (dur : Int)
    (dm : List (String × (Option Int × Option Int))) (acc : Option Int) (dep : Dependency) :
    depFoldStep cal fuel dur dm acc dep = omax acc (depContribution cal fuel dur dm dep) := by
  unfold depFoldStep depContribution
  rcases lookupA dm dep.id with _ | ⟨ps, pe⟩
  · cases acc <;> rfl
  · rcases ps with _ | psv <;> rcases pe with _ | pev
    · cases acc <;> rfl
    · cases acc <;> rfl
    · cases acc <;> rfl
    · rcases acc with _ | m
      · rfl
      · show (if m < _ then _ else _) = some (max m _)
        rcases lt_or_ge m (depStartDate cal fuel dur psv pev dep.linkType dep.lag) with h | h
        · simp [h, max_eq_right h.le]
        · simp [not_lt.mpr h, max_eq_left h]

lemma listMax_cons (v : Int) (l : List Int) :
    listMax (v :: l) = omax (some v) (listMax l) := by
  show l.foldl (fun x y => omax x (some y)) (omax none (some v)) = _
  calc l.foldl (fun x y => omax x (some y)) (omax none (some v))
      = l.foldl (fun x y => omax x (some y)) (omax (some v) none) := rfl
  _ = omax (some v) (l.foldl (fun x y => omax x (some y)) none) := foldl_omax_shift l _ _
  _ = omax (some v) (listMax l) := rfl

lemma depEarliest_fold (cal : Calendar) (fuel : Nat) (dur : Int)
    (dm : List (String × (Option Int × Option Int))) :
    ∀ (deps : List Dependency) (acc : Option Int),
      deps.foldl (depFoldStep cal fuel dur dm) acc =
        omax acc (listMax (deps.filterMap (depContribution cal fuel dur dm))) := by
  intro deps
  induction deps with
  | nil => intro acc; cases acc <;> rfl
  | cons dep deps ih =>
    intro acc
    calc (dep :: deps).foldl (depFoldStep cal fuel dur dm) acc
        = deps.foldl (depFoldStep cal fuel dur dm) (depFoldStep cal fuel dur dm acc dep) := rfl
    _ = omax (depFoldStep cal fuel dur dm acc dep)
          (listMax (deps.filterMap (depContribution cal fuel dur dm))) := ih _
    _ = omax (omax acc (depContribution cal fuel dur dm dep))
          (listMax (deps.filterMap (depContribution cal fuel dur dm))) := by
        rw [depFoldStep_eq_omax]
    _ = omax acc (omax (depContribution cal fuel dur dm dep)
          (listMax (deps.filterMap (depContribution cal fuel dur dm)))) := omax_assoc _ _ _
    _ = omax acc (listMax ((dep :: deps).filterMap (depContribution cal fuel dur dm))) := by
        rcases hc : depContribution cal fuel dur dm dep with _ | v
        · simp [List.filterMap_cons, hc, omax]
        · simp only [List.filterMap_cons, hc, listMax_cons]

/-- C1: the forward pass's dependency fold computes exactly the maximum
(latest) implied earliest start over the contributing edges: per edge the
link-type table FS `addWorkDays(p.end, 1+λ)`, SS `addWorkDays(p.start, λ)`,
FF `addWorkDays(p.end, −off(dur)+λ)`, SF `addWorkDays(p.start, −off(dur)+λ)`
with unknown link types treated as FS (`depStartDate`), and an edge whose
predecessor is missing from the snapshot or has an empty start or end
contributes nothing (`depContribution`). -/
theorem claim_C1_dependency_candidate (cal : Calendar) (fuel : Nat) (dur : Int)
    (dm : List (String × (Option Int × Option Int))) (deps : List Dependency) :
    depEarliest cal fuel dur dm deps =
      listMax (deps.filterMap (depContribution cal fuel dur dm)) := by
  unfold depEarliest
  rw [depEarliest_fold]
  rcases listMax (deps.filterMap (depContribution cal fuel dur dm)) with _ | v <;> rfl

/-! ## Claim C6: the SNLT constraint -/

/-- The concrete task of the C6 counterexample: SNLT with constraint date
Friday 2024-01-05 (day 5), no dependencies, empty start. -/
def c6Task : Task :=
  { (mkTask "a") with constraintType := "SNLT", constraintDate := some 5 }

/-- C6 counterexample: a leaf with SNLT, no dependency candidate and an empty
start comes out of the forward pass with the start still empty — the claim
says the absent candidate is clamped down to the constraint date (day 5). -/
theorem claim_C6_counterexample :
    ((forward_pass calMonFri 100 9 [c6Task]).map (fun t => t.start)) = [none] ∧
    toLowerStr c6Task.constraintType = "snlt" ∧ c6Task.constraintDate = some 5 := by
  decide

/-- C6 (amended): for a leaf with SNLT and constraint date `cd` processed by a
forward-pass iteration: a dependency candidate `v` is clamped down to `cd`
exactly when `cd < v` (so SNLT never moves the start later); with no candidate
the task's existing non-empty start `s` is likewise clamped to `min cd s`; and
with no candidate and an empty start SNLT has no effect at all — the start
stays empty rather than being clamped to `cd` as the claim states. -/
theorem claim_C6_amended (cal : Calendar) (fuel : Nat) (today : Int)
    (dm : List (String × (Option Int × Option Int))) (t : Task) (cd : Int)
    (hct : toLowerStr t.constraintType = "snlt") (hcd : t.constraintDate = some cd) :
    (forwardProcessTask cal fuel today dm t).fst.start =
      (match depEarliest cal fuel t.duration dm t.dependencies, t.start with
       | some v, _ => some (if cd < v then cd else v)
       | none, some s => some (min cd s)
       | none, none => none) := by
  rcases hc : depEarliest cal fuel t.duration dm t.dependencies with _ | v
  · rcases hs : t.start with _ | s
    · simp only [forwardProcessTask, applyConstraints, hct, hcd, hc, hs]
    · simp only [forwardProcessTask, applyConstraints, hct, hcd, hc, hs]
      by_cases h : cd < s
      · simp only [if_pos h]
        have hmin : min cd s = cd := min_eq_left h.le
        split <;> simp_all
      · simp only [if_neg h]
        have hmin : min cd s = s := min_eq_right (by omega)
        split <;> simp_all
  · simp only [forwardProcessTask, applyConstraints, hct, hcd, hc]
    by_cases h : cd < v
    · simp only [if_pos h]
      split <;> simp_all
    · simp only [if_neg h]
      split <;> simp_all

/-- The concrete task of the C6 witness: SNLT towards day 5 with an existing
start at day 10. -/
def c6WTask : Task :=
  { (mkTask "w") with constraintType := "SNLT", constraintDate := some 5, start := some 10 }

/-- C6 witness: the amended statement applied to a concrete SNLT task whose
existing start (day 10) is clamped down to the constraint date (day 5). -/
theorem claim_C6_witness :
    toLowerStr c6WTask.constraintType = "snlt" ∧ c6WTask.constraintDate = some 5 ∧
    (forwardProcessTask calMonFri 100 9 [] c6WTask).fst.start =
      (match depEarliest calMonFri 100 c6WTask.duration [] c6WTask.dependencies,
          c6WTask.start with
       | some v, _ => some (if 5 < v then 5 else v)
       | none, some s => some (min 5 s)
       | none, none => none) :=
  ⟨by decide, by decide, claim_C6_amended calMonFri 100 9 [] c6WTask 5 (by decide) (by decide)⟩

/-! ## Claim C8: backward pass with no leaf end -/

lemma foldl_neutral {α β : Type} (f : α → β → α) :
    ∀ (l : List β) (acc : α), (∀ b ∈ l, ∀ a, f a b = a) → l.foldl f acc = acc := by
  intro l
  induction l with
  | nil => intro acc _; rfl
  | cons b l ih =>
    intro acc h
    calc (b :: l).foldl f acc = l.foldl f (f acc b) := rfl
    _ = l.foldl f acc := by rw [h b (List.mem_cons_self _ _) acc]
    _ = acc := ih acc (fun x hx => h x (List.mem_cons_of_mem _ hx))

lemma projectEndOf_eq_none (pids : List String) (tasks : List Task)
    (h : ∀ t ∈ tasks, pids.contains t.id = false → t.end_ = none) :
    projectEndOf pids tasks = none := by
  unfold projectEndOf
  refine foldl_neutral _ tasks none (fun t ht a => ?_)
  by_cases hp : pids.contains t.id
  · rw [if_pos hp]
  · have he : t.end_ = none := h t ht (Bool.not_eq_true _ ▸ hp)
    rw [if_neg hp, he]

/-- C8: when no leaf (task not referenced as any other task's `parent_id`) has
a non-empty end, the backward pass returns without computing late dates: the
task list — in particular every `late_start` and `late_finish` — is exactly
as it was on entry. -/
theorem claim_C8_early_return (cal : Calendar) (fuel : Nat)
    (succMap : List (String × List SuccessorEntry)) (tasks : List Task)
    (h : ∀ t ∈ tasks, (parentIdsOf tasks).contains t.id = false → t.end_ = none) :
    backward_pass cal fuel succMap tasks = tasks := by
  have hpe : projectEndOf (parentIdsOf tasks) tasks = none :=
    projectEndOf_eq_none _ _ h
  simp only [backward_pass, hpe]

/-- The task list of the C8 witness: a parent with a non-empty end (which must
not count) and a leaf child with an empty end. -/
def c8Tasks : List Task :=
  [{ (mkTask "p") with end_ := some 3 },
   { (mkTask "c") with parentId := some "p" }]

/-- C8 witness: on the concrete two-task list every leaf end is empty and the
backward pass leaves the list untouched. -/
theorem claim_C8_witness :
    (∀ t ∈ c8Tasks, (parentIdsOf c8Tasks).contains t.id = false → t.end_ = none) ∧
    backward_pass calMonFri 100 (build_successor_map c8Tasks) c8Tasks = c8Tasks :=
  ⟨by decide,
   claim_C8_early_return calMonFri 100 (build_successor_map c8Tasks) c8Tasks (by decide)⟩

/-! ## Claim C9: unknown-id errors leave the engine state unchanged -/

lemma removeA_fst_eq_lookupA : ∀ (m : List (String × Task)) (id : String),
    (removeA m id).fst = lookupA m id := by
  intro m
  induction m with
  | nil => intro id; rfl
  | cons p rest ih =>
    intro id
    obtain ⟨k, v⟩ := p
    by_cases h : k = id
    · simp [removeA, lookupA, h]
    · simp [removeA, lookupA, h, ih]

lemma removeA_snd_of_absent : ∀ (m : List (String × Task)) (id : String),
    lookupA m id = none → (removeA m id).snd = m := by
  intro m
  induction m with
  | nil => intro id _; rfl
  | cons p rest ih =>
    intro id hl
    obtain ⟨k, v⟩ := p
    by_cases h : k = id
    · simp [lookupA, h] at hl
    · simp only [lookupA, if_neg h] at hl
      simp [removeA, h, ih id hl]

/-- C9: on an initialized engine, `update_engine_task` and
`delete_engine_task` succeed exactly when the id names an existing task, and
when the id is unknown the returned state — task map, task order, calendar
and initialized flag — is exactly the input state.  (Payload parse failures,
which also error without mutating, are outside the model: updates arrive
pre-parsed.) -/
theorem claim_C9_unknown_id (st : ProjectState) (id : String)
    (updates : List FieldUpdate) (hinit : st.initialized = true) :
    ((update_engine_task st id updates).fst.isOk = (lookupA st.tasks id).isSome ∧
      ((lookupA st.tasks id).isSome = false → (update_engine_task st id updates).snd = st)) ∧
    ((delete_engine_task st id).fst.isOk = (lookupA st.tasks id).isSome ∧
      ((lookupA st.tasks id).isSome = false → (delete_engine_task st id).snd = st)) := by
  obtain ⟨sts, sord, scal, sini⟩ := st
  cases sini with
  | false => simp [ProjectState.initialized] at hinit
  | true =>
    constructor
    · rcases hl : lookupA sts id with _ | t
      · constructor
        · simp [update_engine_task, ProjectState.update_task, hl, Except.isOk, Except.toBool]
        · intro _
          simp [update_engine_task, ProjectState.update_task, hl]
      · constructor
        · simp [update_engine_task, ProjectState.update_task, hl, Except.isOk, Except.toBool]
        · intro hfalse
          simp [hl] at hfalse
    · rcases hl : lookupA sts id with _ | t
      · have hfst : (removeA sts id).fst = none := by rw [removeA_fst_eq_lookupA, hl]
        have hsnd : (removeA sts id).snd = sts := removeA_snd_of_absent _ _ hl
        constructor
        · simp [delete_engine_task, ProjectState.delete_task, hfst,
                Except.isOk, Except.toBool]
        · intro _
          simp [delete_engine_task, ProjectState.delete_task, hfst, hsnd]
      · have hfst : (removeA sts id).fst = some t := by rw [removeA_fst_eq_lookupA, hl]
        constructor
        · simp [delete_engine_task, ProjectState.delete_task, hfst,
                Except.isOk, Except.toBool]
        · intro hfalse
          simp [hl] at hfalse

/-- The concrete engine state of the C9 witness: initialized, one task `a`. -/
def c9State : ProjectState :=
  { tasks := [("a", mkTask "a")], taskOrder := ["a"], calendar := some calMonFri,
    initialized := true }

/-- C9 witness: on the concrete initialized state, updating or deleting the
absent id `b` errors and returns the state unchanged. -/
theorem claim_C9_witness :
    c9State.initialized = true ∧
    (((update_engine_task c9State "b" []).fst.isOk = (lookupA c9State.tasks "b").isSome ∧
       ((lookupA c9State.tasks "b").isSome = false →
         (update_engine_task c9State "b" []).snd = c9State)) ∧
     ((delete_engine_task c9State "b").fst.isOk = (lookupA c9State.tasks "b").isSome ∧
       ((lookupA c9State.tasks "b").isSome = false →
         (delete_engine_task c9State "b").snd = c9State))) :=
  ⟨by decide, claim_C9_unknown_id c9State "b" [] (by decide)⟩

/-! ## Generic machinery for the pass-composition proofs -/

/-- The identity-and-hierarchy projection of a task; the passes never change
it. -/
def sigOf (t : Task) : String × Option String := (t.id, t.parentId)

/-- The float projection of a task. -/
def floatsOf (t : Task) : Option Int × Option Int := (t.totalFloatDays, t.freeFloatDays)

lemma lookupA_insertReplace_ne {α : Type} (k x : String) (v : α) (h : k ≠ x) :
    ∀ (m : List (String × α)), lookupA (insertReplace m k v) x = lookupA m x := by
  intro m
  induction m with
  | nil => simp [insertReplace, lookupA, h]
  | cons p rest ih =>
    obtain ⟨k', v'⟩ := p
    by_cases hk : k' = k
    · subst hk
      simp [insertReplace, lookupA, h]
    · simp [insertReplace, lookupA, hk, ih]

lemma lookupA_roundFold_none {α : Type} (pids : List String)
    (depths : List (String × Int)) (depth : Int) (val : Task → α) (x : String)
    (hx : pids.contains x = false) :
    ∀ (l : List Task) (m0 : List (String × α)), lookupA m0 x = none →
      lookupA (l.foldl (fun m t =>
        if pids.contains t.id ∧ lookupA depths t.id = some depth
        then insertReplace m t.id (val t) else m) m0) x = none := by
  intro l
  induction l with
  | nil => intro m0 h0; exact h0
  | cons t l ih =>
    intro m0 h0
    by_cases hc : pids.contains t.id ∧ lookupA depths t.id = some depth
    · have hne : t.id ≠ x := by
        intro he
        rw [he, hx] at hc
        simp at hc
      simp only [List.foldl_cons, if_pos hc]
      exact ih _ ((lookupA_insertReplace_ne _ _ _ hne m0).trans h0)
    · simp only [List.foldl_cons, if_neg hc]
      exact ih _ h0

lemma map_proj_of_ptwise {β : Type} (f : Task → β) (g : Task → Task)
    (hf : ∀ t, f (g t) = f t) (ts : List Task) : (ts.map g).map f = ts.map f := by
  rw [List.map_map]
  exact List.map_congr_left (fun t _ => hf t)

lemma foldl_rounds_proj {β γ : Type} (f : Task → β) (step : List Task → γ → List Task)
    (hstep : ∀ ts d, (step ts d).map f = ts.map f) :
    ∀ (ds : List γ) (ts : List Task), (ds.foldl step ts).map f = ts.map f := by
  intro ds
  induction ds with
  | nil => intro ts; rfl
  | cons d ds ih => intro ts; rw [List.foldl_cons, ih, hstep]

lemma foldl_rounds_skip {γ : Type} (step : List Task → γ → List Task) (P : Task → Prop)
    (hstep : ∀ ts d i t, ts.get? i = some t → P t → (step ts d).get? i = some t) :
    ∀ (ds : List γ) (ts : List Task) (i : Nat) (t : Task),
      ts.get? i = some t → P t → (ds.foldl step ts).get? i = some t := by
  intro ds
  induction ds with
  | nil => intro ts i t h _; exact h
  | cons d ds ih => intro ts i t h hp; exact ih _ i t (hstep ts d i t h hp) hp

/-- Reformulation of `parentIdsOf` through the identity projection: the parent
id list depends only on the tasks' ids and parent ids. -/
def parentIdsOfP (l : List (String × Option String)) : List String :=
  (l.filter (fun p => l.any (fun q => decide (q.2 = some p.1)))).map Prod.fst

lemma any_map_general {α β : Type} (l : List α) (f : α → β) (p : β → Bool) :
    (l.map f).any p = l.any (fun a => p (f a)) := by
  induction l with
  | nil => rfl
  | cons a l ih => simp only [List.map_cons, List.any_cons, ih]

lemma parentIdsOf_eq_P (ts : List Task) :
    parentIdsOf ts = parentIdsOfP (ts.map sigOf) := by
  unfold parentIdsOf parentIdsOfP is_parent
  rw [List.filter_map, List.map_map]
  refine congrArg₂ _ rfl (List.filter_congr (fun t _ => ?_))
  show _ = (ts.map sigOf).any fun q => decide (q.2 = some (sigOf t).1)
  rw [any_map_general]
  rfl

lemma parentIdsOf_sig_congr (ts ts' : List Task)
    (h : ts'.map sigOf = ts.map sigOf) : parentIdsOf ts' = parentIdsOf ts := by
  rw [parentIdsOf_eq_P, parentIdsOf_eq_P, h]

/-! ## Claim C2: free-float bounds -/

lemma floatLeafTask_sig (cal : Calendar) (sm : List (String × List SuccessorEntry))
    (dm : List (String × (Option Int × Option Int × Bool))) (t : Task) :
    sigOf (floatLeafTask cal sm dm t) = sigOf t := by
  unfold floatLeafTask
  dsimp only
  split
  · rfl
  · split <;> rfl

lemma floatLeafTask_bounds (cal : Calendar) (sm : List (String × List SuccessorEntry))
    (dm : List (String × (Option Int × Option Int × Bool))) (t : Task) :
    ∃ tf ff, (floatLeafTask cal sm dm t).totalFloatDays = some tf ∧
      (floatLeafTask cal sm dm t).freeFloatDays = some ff ∧
      ff ≤ tf ∧ (0 ≤ tf → 0 ≤ ff) := by
  unfold floatLeafTask
  dsimp only
  split
  · exact ⟨leafTotalFloat cal t, leafTotalFloat cal t, rfl, rfl, le_refl _, fun h => h⟩
  · split
    · next m _ =>
      refine ⟨leafTotalFloat cal t, min (max m 0) (leafTotalFloat cal t), rfl, rfl,
        min_le_right _ _, fun h => le_min (le_max_right _ _) h⟩
    · exact ⟨leafTotalFloat cal t, leafTotalFloat cal t, rfl, rfl, le_refl _, fun h => h⟩

lemma floatRound_sig (pids : List String) (depths : List (String × Int))
    (ts : List Task) (d : Int) : (floatRound pids depths ts d).map sigOf = ts.map sigOf := by
  unfold floatRound
  refine map_proj_of_ptwise sigOf _ (fun t => ?_) ts
  split <;> rfl

lemma floatRound_skip (pids : List String) (depths : List (String × Int))
    (ts : List Task) (d : Int) (i : Nat) (t : Task) (h : ts.get? i = some t)
    (hp : pids.contains t.id = false) : (floatRound pids depths ts d).get? i = some t := by
  unfold floatRound
  rw [List.get?_map, h]
  have hlook : lookupA (ts.foldl (fun m u =>
      if pids.contains u.id ∧ lookupA depths u.id = some d
      then insertReplace m u.id (parentMinFloat ts u.id) else m) []) t.id = none :=
    lookupA_roundFold_none pids depths d (fun u => parentMinFloat ts u.id) t.id hp ts [] rfl
  simp only [Option.map_some']
  rw [hlook]

lemma criticalRound_proj {β : Type} (pids : List String) (depths : List (String × Int))
    (f : Task → β) (hf : ∀ t b, f { t with isCritical := some b } = f t)
    (ts : List Task) (d : Int) : (criticalRound pids depths ts d).map f = ts.map f := by
  unfold criticalRound
  refine map_proj_of_ptwise f _ (fun t => ?_) ts
  split
  · rfl
  · exact hf t _

lemma mark_critical_path_sig (ts : List Task) :
    (mark_critical_path ts).map sigOf = ts.map sigOf := by
  unfold mark_critical_path
  rw [foldl_rounds_proj sigOf _ (fun ts' d => criticalRound_proj _ _ sigOf (fun t b => rfl) ts' d)]
  refine map_proj_of_ptwise sigOf _ (fun t => ?_) ts
  split <;> rfl

lemma mark_critical_path_floats (ts : List Task) :
    (mark_critical_path ts).map floatsOf = ts.map floatsOf := by
  unfold mark_critical_path
  rw [foldl_rounds_proj floatsOf _
    (fun ts' d => criticalRound_proj _ _ floatsOf (fun t b => rfl) ts' d)]
  refine map_proj_of_ptwise floatsOf _ (fun t => ?_) ts
  split <;> rfl

lemma calculate_float_sig (cal : Calendar) (sm : List (String × List SuccessorEntry))
    (ts : List Task) : (calculate_float cal sm ts).map sigOf = ts.map sigOf := by
  unfold calculate_float
  rw [foldl_rounds_proj sigOf _ (fun ts' d => floatRound_sig _ _ ts' d)]
  refine map_proj_of_ptwise sigOf _ (fun t => ?_) ts
  split
  · rfl
  · exact floatLeafTask_sig _ _ _ t

lemma calculate_float_leaf (cal : Calendar) (sm : List (String × List SuccessorEntry))
    (ts : List Task) (i : Nat) (w : Task) (hw : ts.get? i = some w)
    (hleaf : (parentIdsOf ts).contains w.id = false) :
    ∃ dm, (calculate_float cal sm ts).get? i = some (floatLeafTask cal sm dm w) := by
  unfold calculate_float
  dsimp only
  refine ⟨ts.foldl (fun m t =>
    insertReplace m t.id (t.start, t.end_, (parentIdsOf ts).contains t.id)) [], ?_⟩
  refine foldl_rounds_skip _ (fun u => (parentIdsOf ts).contains u.id = false)
    (fun ts' d j u hu hpu => floatRound_skip _ _ ts' d j u hu hpu) _ _ i _ ?_ ?_
  · rw [List.get?_map, hw]
    simp only [Option.map_some']
    rw [if_neg (by rw [hleaf]; exact Bool.false_ne_true)]
  · have hsig := floatLeafTask_sig cal sm (ts.foldl (fun m t =>
      insertReplace m t.id (t.start, t.end_, (parentIdsOf ts).contains t.id)) []) w
    have hid : (floatLeafTask cal sm (ts.foldl (fun m t =>
      insertReplace m t.id (t.start, t.end_, (parentIdsOf ts).contains t.id)) []) w).id = w.id :=
      congrArg Prod.fst hsig
    dsimp only
    rw [hid]
    exact hleaf

lemma get?_of_map_proj {β : Type} (f : Task → β) (ts ts' : List Task)
    (h : ts'.map f = ts.map f) (i : Nat) (t t' : Task)
    (ht : ts.get? i = some t) (ht' : ts'.get? i = some t') : f t' = f t := by
  have hg := congrArg (fun l => l.get? i) h
  simp only [List.get?_map, ht, ht', Option.map_some'] at hg
  exact Option.some.inj hg

lemma length_eq_of_map_proj {β : Type} (f : Task → β) (ts ts' : List Task)
    (h : ts'.map f = ts.map f) : ts'.length = ts.length := by
  have := congrArg List.length h
  simpa using this

lemma calculate_tasks_empty (cal : Calendar) (fuel : Nat) (today : Int) (tasks : List Task)
    (h : tasks.isEmpty = true) : (calculate cal fuel today tasks).tasks = [] := by
  simp [calculate, h]

lemma calculate_tasks_eq (cal : Calendar) (fuel : Nat) (today : Int) (tasks : List Task)
    (h : tasks.isEmpty = false) :
    (calculate cal fuel today tasks).tasks =
      mark_critical_path (calculate_float cal (build_successor_map tasks)
        (backward_pass cal fuel (build_successor_map tasks)
          (calculate_parent_dates cal (forward_pass cal fuel today tasks)))) := by
  simp [calculate, h]

/-- The concrete task of the C2 counterexample: starts Monday 2024-01-08
(day 8), FNLT constraint date Monday 2024-01-01 (day 1). -/
def c2Task : Task :=
  { (mkTask "a") with start := some 8, constraintType := "FNLT", constraintDate := some 1 }

/-- C2 counterexample: the FNLT constraint pulls the late finish a week before
the start, the total float becomes −5, and the leaf has no successors so its
free float equals the total float: `free_float_days = −5 < 0`, refuting
`0 ≤ free_float_days`. -/
theorem claim_C2_counterexample :
    ((calculate calMonFri 100 9 [c2Task]).tasks.map
      (fun t => (t.totalFloatDays, t.freeFloatDays))) = [(some (-5), some (-5))] ∧
    ¬ (0 : Int) ≤ -5 := by decide

/-- C2 (amended): after `calculate`, every leaf has both float fields
populated with `free_float_days ≤ total_float_days`, and `0 ≤ free_float_days`
holds whenever `0 ≤ total_float_days` — but not unconditionally: when the
total float is negative the free float equals it (counterexample). -/
theorem claim_C2_amended (cal : Calendar) (fuel : Nat) (today : Int) (tasks : List Task)
    (i : Nat) (t : Task)
    (hget : (calculate cal fuel today tasks).tasks.get? i = some t)
    (hleaf : (parentIdsOf (calculate cal fuel today tasks).tasks).contains t.id = false) :
    ∃ tf ff, t.totalFloatDays = some tf ∧ t.freeFloatDays = some ff ∧
      ff ≤ tf ∧ (0 ≤ tf → 0 ≤ ff) := by
  cases hemp : tasks.isEmpty with
  | true =>
    rw [calculate_tasks_empty cal fuel today tasks hemp] at hget
    simp at hget
  | false =>
    rw [calculate_tasks_eq cal fuel today tasks hemp] at hget hleaf
    set sm := build_successor_map tasks with hsm
    set ts3 := backward_pass cal fuel sm
      (calculate_parent_dates cal (forward_pass cal fuel today tasks)) with hts3
    set fl := calculate_float cal sm ts3 with hfl
    have hsigm : (mark_critical_path fl).map sigOf = fl.map sigOf := mark_critical_path_sig fl
    have hflom : (mark_critical_path fl).map floatsOf = fl.map floatsOf :=
      mark_critical_path_floats fl
    have hsigf : fl.map sigOf = ts3.map sigOf := calculate_float_sig cal sm ts3
    have hlen1 : (mark_critical_path fl).length = fl.length :=
      length_eq_of_map_proj sigOf _ _ hsigm
    have hlen2 : fl.length = ts3.length := length_eq_of_map_proj sigOf _ _ hsigf
    have hi : i < (mark_critical_path fl).length := by
      by_contra hni
      rw [List.get?_eq_none.mpr (by omega)] at hget
      exact Option.noConfusion hget
    rcases hu : fl.get? i with _ | u
    · have := List.get?_eq_none.mp hu
      omega
    rcases hw : ts3.get? i with _ | w
    · have := List.get?_eq_none.mp hw
      omega
    have hfloats : floatsOf t = floatsOf u :=
      get?_of_map_proj floatsOf fl (mark_critical_path fl) hflom i u t hu hget
    have hsigtu : sigOf t = sigOf u :=
      get?_of_map_proj sigOf fl (mark_critical_path fl) hsigm i u t hu hget
    have hsiguw : sigOf u = sigOf w := get?_of_map_proj sigOf ts3 fl hsigf i w u hw hu
    have hpids_m : parentIdsOf (mark_critical_path fl) = parentIdsOf fl :=
      parentIdsOf_sig_congr fl _ hsigm
    have hpids_f : parentIdsOf fl = parentIdsOf ts3 := parentIdsOf_sig_congr ts3 fl hsigf
    have hleaf_w : (parentIdsOf ts3).contains w.id = false := by
      have hidtw : t.id = w.id := congrArg Prod.fst (hsigtu.trans hsiguw)
      rw [← hidtw, ← hpids_f, ← hpids_m]
      exact hleaf
    obtain ⟨dm, hfl_leaf⟩ := calculate_float_leaf cal sm ts3 i w hw hleaf_w
    have huval : u = floatLeafTask cal sm dm w := by
      rw [hu] at hfl_leaf
      exact Option.some.inj hfl_leaf
    obtain ⟨tf, ff, htf, hff, h1, h2⟩ := floatLeafTask_bounds cal sm dm w
    refine ⟨tf, ff, ?_, ?_, h1, h2⟩
    · have hpt : t.totalFloatDays = u.totalFloatDays := congrArg Prod.fst hfloats
      rw [hpt, huval, htf]
    · have hpf : t.freeFloatDays = u.freeFloatDays := congrArg Prod.snd hfloats
      rw [hpf, huval, hff]

/-- Input task of the C2 witness. -/
def c2wIn : Task := { (mkTask "a") with start := some 1 }

/-- The task the C2 witness run produces. -/
def c2wOut : Task :=
  { (mkTask "a") with start := some 1, end_ := some 1, lateStart := some 1, lateFinish := some 1, totalFloatDays := some 0, freeFloatDays := some 0, isCritical := some true }

/-- C2 witness: a one-task project whose leaf ends up with total and free
float 0, satisfying the amended bounds. -/
theorem claim_C2_witness :
    ((calculate calMonFri 100 1 [c2wIn]).tasks.get? 0 = some c2wOut ∧
     (parentIdsOf (calculate calMonFri 100 1 [c2wIn]).tasks).contains c2wOut.id = false) ∧
    ∃ tf ff, c2wOut.totalFloatDays = some tf ∧ c2wOut.freeFloatDays = some ff ∧
      ff ≤ tf ∧ (0 ≤ tf → 0 ≤ ff) :=
  ⟨⟨by decide, by decide⟩,
   claim_C2_amended calMonFri 100 1 [c2wIn] 0 c2wOut (by decide) (by decide)⟩

/-! ## Claim C7: determinism and the wall clock -/

/-- The concrete task of the C7 counterexample: empty start, no dependencies,
default (ASAP) constraint — its start is seeded from `today()`. -/
def c7Task : Task := mkTask "a"

/-- C7 counterexample: two runs of `calculate` on the identical `(tasks,
calendar)` input but on different wall-clock days (day 1 vs day 2) return
different snapshots — the ASAP seeding `candidate ← today()` makes the output
depend on the clock, so `calc_time` is not the only run-dependent part of the
result. -/
theorem claim_C7_counterexample :
    calculate calMonFri 100 1 [c7Task] ≠ calculate calMonFri 100 2 [c7Task] := by decide

lemma applyConstraints_today_irrel (cal : Calendar) (fuel : Nat) (d₁ d₂ : Int) (t : Task)
    (e : Option Int) (hs : t.start ≠ none) :
    applyConstraints cal fuel d₁ t e = applyConstraints cal fuel d₂ t e := by
  unfold applyConstraints
  split <;> try rfl
  cases e
  · simp [hs]
  · rfl

lemma forwardProcessTask_today_irrel (cal : Calendar) (fuel : Nat)
    (dm : List (String × (Option Int × Option Int))) (d₁ d₂ : Int) (t : Task)
    (hs : t.start ≠ none) :
    forwardProcessTask cal fuel d₁ dm t = forwardProcessTask cal fuel d₂ dm t := by
  unfold forwardProcessTask
  dsimp only
  rw [applyConstraints_today_irrel cal fuel d₁ d₂ t _ hs]

lemma forwardProcessTask_start_some (cal : Calendar) (fuel : Nat) (today : Int)
    (dm : List (String × (Option Int × Option Int))) (t : Task) (hs : t.start ≠ none) :
    (forwardProcessTask cal fuel today dm t).fst.start ≠ none := by
  unfold forwardProcessTask
  dsimp only
  cases hac : applyConstraints cal fuel today t (depEarliest cal fuel t.duration dm t.dependencies) with
  | mfoSet e s => simp
  | proceed fs0 =>
    dsimp only
    cases fs0 with
    | some v => split <;> first | (split <;> simp) | simp_all
    | none =>
      cases hts : t.start with
      | none => exact fun _ => hs hts
      | some s0 => split <;> first | (split <;> simp) | simp_all

/-- Every task in the list has a non-empty start. -/
def AllStartsSome (ts : List Task) : Prop := ∀ t ∈ ts, t.start ≠ none

lemma forwardIteration_today_irrel (cal : Calendar) (fuel : Nat) (pids : List String)
    (d₁ d₂ : Int) (ts : List Task) (h : AllStartsSome ts) :
    forwardIteration cal fuel d₁ pids ts = forwardIteration cal fuel d₂ pids ts := by
  unfold forwardIteration
  have hmap : ts.map (fun t => if pids.contains t.id then (t, false)
      else forwardProcessTask cal fuel d₁
        (ts.foldl (fun m t => insertReplace m t.id (t.start, t.end_)) []) t) =
    ts.map (fun t => if pids.contains t.id then (t, false)
      else forwardProcessTask cal fuel d₂
        (ts.foldl (fun m t => insertReplace m t.id (t.start, t.end_)) []) t) := by
    refine List.map_congr_left (fun t ht => ?_)
    by_cases hp : pids.contains t.id
    · rw [if_pos hp, if_pos hp]
    · rw [if_neg hp, if_neg hp]
      exact forwardProcessTask_today_irrel cal fuel _ d₁ d₂ t (h t ht)
  dsimp only
  rw [hmap]

lemma forwardIteration_preserves_starts (cal : Calendar) (fuel : Nat) (today : Int)
    (pids : List String) (ts : List Task) (h : AllStartsSome ts) :
    AllStartsSome (forwardIteration cal fuel today pids ts).fst := by
  unfold forwardIteration AllStartsSome
  intro t' ht'
  dsimp only at ht'
  rw [List.map_map] at ht'
  obtain ⟨t, ht, heq⟩ := List.mem_map.mp ht'
  by_cases hp : pids.contains t.id
  · simp only [Function.comp, if_pos hp] at heq
    rw [← heq]
    exact h t ht
  · simp only [Function.comp, if_neg hp] at heq
    rw [← heq]
    exact forwardProcessTask_start_some cal fuel today _ t (h t ht)

lemma runIters_today_irrel (cal : Calendar) (fuel : Nat) (pids : List String)
    (d₁ d₂ : Int) :
    ∀ (n : Nat) (ts : List Task), AllStartsSome ts →
      runIters (forwardIteration cal fuel d₁ pids) n ts =
        runIters (forwardIteration cal fuel d₂ pids) n ts := by
  intro n
  induction n with
  | zero => intro ts _; rfl
  | succ k ih =>
    intro ts h
    have hit := forwardIteration_today_irrel cal fuel pids d₁ d₂ ts h
    rcases hstep : forwardIteration cal fuel d₂ pids ts with ⟨ts', ch⟩
    have hts' : AllStartsSome ts' := by
      have hpre := forwardIteration_preserves_starts cal fuel d₂ pids ts h
      rw [hstep] at hpre
      exact hpre
    have hL : runIters (forwardIteration cal fuel d₁ pids) (k + 1) ts =
        (if ch then runIters (forwardIteration cal fuel d₁ pids) k ts' else ts') := by
      show (match forwardIteration cal fuel d₁ pids ts with
            | (a, b) => if b then runIters (forwardIteration cal fuel d₁ pids) k a else a) = _
      rw [hit, hstep]
    have hR : runIters (forwardIteration cal fuel d₂ pids) (k + 1) ts =
        (if ch then runIters (forwardIteration cal fuel d₂ pids) k ts' else ts') := by
      show (match forwardIteration cal fuel d₂ pids ts with
            | (a, b) => if b then runIters (forwardIteration cal fuel d₂ pids) k a else a) = _
      rw [hstep]
    rw [hL, hR]
    cases ch
    · rfl
    · exact ih ts' hts'

lemma forward_pass_today_irrel (cal : Calendar) (fuel : Nat) (d₁ d₂ : Int)
    (ts : List Task) (h : AllStartsSome ts) :
    forward_pass cal fuel d₁ ts = forward_pass cal fuel d₂ ts := by
  unfold forward_pass
  exact runIters_today_irrel cal fuel (parentIdsOf ts) d₁ d₂ MAX_CPM_ITERATIONS ts h

/-- C7 (amended): `calculate` is deterministic given `(tasks, calendar)` and
the current date: the wall clock enters only through the `today()` seeding of
ASAP tasks with empty start and no dependency candidate, so whenever every
task starts non-empty the result does not depend on the clock at all.  The
original claim — `calc_time` as the sole non-deterministic field — fails, per
the counterexample. -/
theorem claim_C7_amended (cal : Calendar) (fuel : Nat) (d₁ d₂ : Int) (ts : List Task)
    (h : ∀ t ∈ ts, t.start ≠ none) :
    calculate cal fuel d₁ ts = calculate cal fuel d₂ ts := by
  have hfp : forward_pass cal fuel d₁ ts = forward_pass cal fuel d₂ ts :=
    forward_pass_today_irrel cal fuel d₁ d₂ ts h
  unfold calculate
  rw [hfp]

/-- The concrete task of the C7 witness: a task with a non-empty start. -/
def c7wTask : Task := { (mkTask "w") with start := some 3 }

/-- C7 witness: with every start non-empty, the result is identical across
wall-clock days 1 and 2. -/
theorem claim_C7_witness :
    (∀ t ∈ [c7wTask], t.start ≠ none) ∧
    calculate calMonFri 100 1 [c7wTask] = calculate calMonFri 100 2 [c7wTask] :=
  ⟨by decide, claim_C7_amended calMonFri 100 1 2 [c7wTask] (by decide)⟩

/-! ## Claim C5: parent rollup -/

/-- The claim's reading of the rollup start: the minimum start over exactly
those children that have BOTH start and end non-empty. -/
def specBothDatesMinStart (tasks : List Task) (pid : String) : Option Int :=
  listMin ((tasks.filter (fun c =>
    decide (c.parentId = some pid) && decide (c.start ≠ none) &&
      decide (c.end_ ≠ none))).filterMap (fun c => c.start))

/-- The task list of the C5 counterexample: parent `P`; child `A` with a start
(day 5) but an empty end; child `B` with both dates (days 10–12). -/
def c5Tasks : List Task :=
  [mkTask "P",
   { (mkTask "A") with parentId := some "P", start := some 5 },
   { (mkTask "B") with parentId := some "P", start := some 10, end_ := some 12 }]

/-- C5 counterexample: `calculate_parent_dates` sets `P.start` to day 5 —
child `A` contributes its start although its end is empty — while the claim's
"children with both start and end non-empty" yields day 10.  Start and end
contributions are computed independently per child, not over the both-dates
children. -/
theorem claim_C5_counterexample :
    ((calculate_parent_dates calMonFri c5Tasks).map (fun t => (t.id, t.start))) =
      [("P", some 5), ("A", some 5), ("B", some 10)] ∧
    specBothDatesMinStart c5Tasks "P" = some 10 := by decide

lemma lookupA_insertReplace_self {α : Type} (k : String) (v : α) :
    ∀ (m : List (String × α)), lookupA (insertReplace m k v) k = some v := by
  intro m
  induction m with
  | nil => simp [insertReplace, lookupA]
  | cons p rest ih =>
    obtain ⟨k', v'⟩ := p
    by_cases hk : k' = k
    · simp [insertReplace, lookupA, hk]
    · simp [insertReplace, lookupA, hk, ih]

lemma lookupA_roundFold_none_of_depth {α : Type} (pids : List String)
    (depths : List (String × Int)) (d : Int) (val : Task → α) (x : String) (dp : Int)
    (hx : lookupA depths x = some dp) (hne : dp ≠ d) :
    ∀ (l : List Task) (m0 : List (String × α)), lookupA m0 x = none →
      lookupA (l.foldl (fun m t =>
        if pids.contains t.id ∧ lookupA depths t.id = some d
        then insertReplace m t.id (val t) else m) m0) x = none := by
  intro l
  induction l with
  | nil => intro m0 h0; exact h0
  | cons t l ih =>
    intro m0 h0
    by_cases hc : pids.contains t.id ∧ lookupA depths t.id = some d
    · have hne' : t.id ≠ x := by
        intro he
        rw [he, hx] at hc
        exact hne (Option.some.inj hc.2.symm).symm
      simp only [List.foldl_cons, if_pos hc]
      exact ih _ ((lookupA_insertReplace_ne _ _ _ hne' m0).trans h0)
    · simp only [List.foldl_cons, if_neg hc]
      exact ih _ h0

lemma lookupA_fold_untouched {α : Type} (step : List (String × α) → Task → List (String × α))
    (x : String) :
    ∀ (l : List Task) (m0 : List (String × α)),
      (∀ t ∈ l, ∀ m, lookupA (step m t) x = lookupA m x) →
      lookupA (l.foldl step m0) x = lookupA m0 x := by
  intro l
  induction l with
  | nil => intro m0 _; rfl
  | cons t l ih =>
    intro m0 h
    rw [List.foldl_cons, ih _ (fun u hu m => h u (List.mem_cons_of_mem _ hu) m),
      h t (List.mem_cons_self _ _) m0]

lemma lookupA_roundFold_some {α : Type} (pids : List String)
    (depths : List (String × Int)) (d : Int) (val : Task → α) (p : Task)
    (hguard : pids.contains p.id ∧ lookupA depths p.id = some d) :
    ∀ (l : List Task) (m0 : List (String × α)), p ∈ l → (l.map Task.id).Nodup →
      lookupA (l.foldl (fun m t =>
        if pids.contains t.id ∧ lookupA depths t.id = some d
        then insertReplace m t.id (val t) else m) m0) p.id = some (val p) := by
  intro l
  induction l with
  | nil => intro m0 hm _; cases hm
  | cons t l ih =>
    intro m0 hm hnd
    have hnd' : (l.map Task.id).Nodup := (List.nodup_cons.mp hnd).2
    have hni : t.id ∉ l.map Task.id := (List.nodup_cons.mp hnd).1
    rcases List.mem_cons.mp hm with rfl | hm'
    · simp only [List.foldl_cons, if_pos hguard]
      refine (lookupA_fold_untouched _ p.id l _ (fun u hu m => ?_)).trans
        (lookupA_insertReplace_self p.id (val p) m0)
      have hne : u.id ≠ p.id := by
        intro he
        exact hni (he ▸ List.mem_map.mpr ⟨u, hu, rfl⟩)
      by_cases hc : pids.contains u.id ∧ lookupA depths u.id = some d
      · simp only [if_pos hc]
        exact lookupA_insertReplace_ne _ _ _ hne m
      · simp only [if_neg hc]
    · have hne : t.id ≠ p.id := by
        intro he
        exact hni (he ▸ List.mem_map.mpr ⟨p, hm', rfl⟩)
      by_cases hc : pids.contains t.id ∧ lookupA depths t.id = some d
      · simp only [List.foldl_cons, if_pos hc]
        exact ih _ hm' hnd'
      · simp only [List.foldl_cons, if_neg hc]
        exact ih _ hm' hnd'

lemma lookupA_buildFold_some {α : Type} (val : Task → α) (p : Task) :
    ∀ (l : List Task) (m0 : List (String × α)), p ∈ l → (l.map Task.id).Nodup →
      lookupA (l.foldl (fun m t => insertReplace m t.id (val t)) m0) p.id = some (val p) := by
  intro l
  induction l with
  | nil => intro m0 hm _; cases hm
  | cons t l ih =>
    intro m0 hm hnd
    have hnd' : (l.map Task.id).Nodup := (List.nodup_cons.mp hnd).2
    have hni : t.id ∉ l.map Task.id := (List.nodup_cons.mp hnd).1
    rcases List.mem_cons.mp hm with rfl | hm'
    · simp only [List.foldl_cons]
      refine (lookupA_fold_untouched _ p.id l _ (fun u hu m => ?_)).trans
        (lookupA_insertReplace_self p.id (val p) m0)
      have hne : u.id ≠ p.id := fun he => hni (he ▸ List.mem_map.mpr ⟨u, hu, rfl⟩)
      exact lookupA_insertReplace_ne _ _ _ hne m
    · simp only [List.foldl_cons]
      exact ih _ hm' hnd'

lemma forall2_get? {R : Task → Task → Prop} :
    ∀ {ts ts' : List Task}, List.Forall₂ R ts ts' → ∀ (i : Nat) (c : Task),
      ts.get? i = some c → ∃ c', ts'.get? i = some c' ∧ R c c' := by
  intro ts ts' h
  induction h with
  | nil => intro i c hc; simp at hc
  | cons hR hrest ih =>
    intro i c hc
    cases i with
    | zero =>
      refine ⟨_, rfl, ?_⟩
      have : c = _ := Option.some.inj hc.symm
      rw [← this] at hR
      exact hR
    | succ j => exact ih j c hc

lemma forall2_map_right {R : Task → Task → Prop} (g : Task → Task)
    (h : ∀ c c', R c c' → R c (g c')) :
    ∀ {ts ts' : List Task}, List.Forall₂ R ts ts' → List.Forall₂ R ts (ts'.map g) := by
  intro ts ts' hf
  induction hf with
  | nil => exact List.Forall₂.nil
  | cons hR hrest ih => exact List.Forall₂.cons (h _ _ hR) ih

lemma forall2_sig_maps {R : Task → Task → Prop}
    (hR : ∀ c c', R c c' → sigOf c' = sigOf c) :
    ∀ {ts ts' : List Task}, List.Forall₂ R ts ts' → ts'.map sigOf = ts.map sigOf := by
  intro ts ts' h
  induction h with
  | nil => rfl
  | cons hr hrest ih => simp only [List.map_cons, ih, hR _ _ hr]

lemma foldl_congr_of_rel {α β : Type} {R : β → β → Prop} (f : α → β → α)
    (hf : ∀ a c c', R c c' → f a c' = f a c) :
    ∀ {l l' : List β}, List.Forall₂ R l l' → ∀ a, l'.foldl f a = l.foldl f a := by
  intro l l' h
  induction h with
  | nil => intro a; rfl
  | cons hR hrest ih =>
    intro a
    simp only [List.foldl_cons]
    rw [hf a _ _ hR]
    exact ih _

lemma applyParentDates_sig (cal : Calendar) (t : Task) (ms me : Option Int) :
    sigOf (applyParentDates cal t ms me) = sigOf t := by
  unfold applyParentDates
  cases ms <;> cases me <;> (dsimp only; first | rfl | (split <;> rfl))

lemma get_depth_ge (tasks : List Task) :
    ∀ (fuel : Nat) (taskId : String) (acc : Int), acc ≤ get_depth tasks fuel taskId acc := by
  intro fuel
  induction fuel with
  | zero => intro taskId acc; exact le_refl _
  | succ k ih =>
    intro taskId acc
    unfold get_depth
    cases tasks.find? (fun t => t.id == taskId) with
    | none => exact le_refl acc
    | some t =>
      dsimp only
      cases t.parentId with
      | none => exact le_refl acc
      | some pid =>
        dsimp only
        exact le_trans (by omega) (ih pid (acc + 1))

lemma taskDepth_nonneg (tasks : List Task) (taskId : String) :
    0 ≤ taskDepth tasks taskId := get_depth_ge tasks _ taskId 0

lemma foldl_omax_some_ge :
    ∀ (l : List Int) (a : Int),
      ∃ m, l.foldl (fun x y => omax x (some y)) (some a) = some m ∧ a ≤ m := by
  intro l
  induction l with
  | nil => intro a; exact ⟨a, rfl, le_refl a⟩
  | cons y l ih =>
    intro a
    obtain ⟨m, hm, hle⟩ := ih (max a y)
    exact ⟨m, hm, le_trans (le_max_left a y) hle⟩

lemma listMax_mem_le (l : List Int) (x : Int) (hx : x ∈ l) :
    ∃ m, listMax l = some m ∧ x ≤ m := by
  unfold listMax
  induction l with
  | nil => cases hx
  | cons y l ih =>
    simp only [List.foldl_cons]
    rcases List.mem_cons.mp hx with rfl | hx'
    · obtain ⟨m, hm, hle⟩ := foldl_omax_some_ge l x
      exact ⟨m, hm, hle⟩
    · rcases ih hx' with ⟨m, hm, hle⟩
      -- need: foldl from (omax none (some y)) relates to foldl from none
      obtain ⟨m', hm', hle'⟩ := foldl_omax_some_ge l y
      have hsh := foldl_omax_shift l (some y) none
      rw [hm] at hsh
      refine ⟨max y m, by simpa [omax] using hsh, le_trans hle (le_max_right y m)⟩

lemma depthList_nodup (m : Int) : (depthList m).Nodup := by
  unfold depthList
  split
  · exact List.nodup_nil
  · rw [List.nodup_reverse]
    exact List.Nodup.map_on (fun a _ b _ hab => Int.ofNat.inj hab) (List.nodup_range _)

lemma mem_depthList (m x : Int) (h0 : 0 ≤ x) (hm : x ≤ m) : x ∈ depthList m := by
  unfold depthList
  rw [if_neg (by omega)]
  rw [List.mem_reverse, List.mem_map]
  exact ⟨x.toNat, List.mem_range.mpr (by omega), Int.toNat_of_nonneg h0⟩

lemma parentIdsOf_contains_true (ts : List Task) (p : Task) (hp : p ∈ ts)
    (hpar : is_parent p.id ts = true) : (parentIdsOf ts).contains p.id = true := by
  unfold parentIdsOf
  have hmem : p ∈ ts.filter (fun t => is_parent t.id ts) := List.mem_filter.mpr ⟨hp, hpar⟩
  exact List.elem_iff.mpr (List.mem_map.mpr ⟨p, hmem, rfl⟩)

lemma parentIdsOf_contains_false (ts : List Task) (x : String)
    (hx : is_parent x ts = false) : (parentIdsOf ts).contains x = false := by
  cases hc : (parentIdsOf ts).contains x with
  | false => rfl
  | true =>
    exfalso
    obtain ⟨u, humem, huid⟩ := List.mem_map.mp (List.elem_iff.mp hc)
    have := (List.mem_filter.mp humem).2
    rw [huid] at this
    rw [hx] at this
    exact Bool.noConfusion this

/-- The invariant carried through the rollup rounds while proving C5:
identity and hierarchy are untouched, tasks that are not parents are
untouched, and (an input-side fact) every child of `p` is not a parent. -/
def RollInv (ts0 : List Task) (p : Task) (c c' : Task) : Prop :=
  sigOf c' = sigOf c ∧ ((parentIdsOf ts0).contains c.id = false → c' = c) ∧
    (c.parentId = some p.id → (parentIdsOf ts0).contains c.id = false)

lemma rollupRound_preserves_RollInv (cal : Calendar) (ts0 : List Task) (p : Task)
    (depths : List (String × Int)) (d : Int) {ts ts' : List Task}
    (h : List.Forall₂ (RollInv ts0 p) ts ts') :
    List.Forall₂ (RollInv ts0 p) ts (rollupRound cal (parentIdsOf ts0) depths ts' d) := by
  unfold rollupRound
  refine forall2_map_right _ (fun c c' hcc => ?_) h
  obtain ⟨hsig, hleaf, hq⟩ := hcc
  have hid : c'.id = c.id := congrArg Prod.fst hsig
  refine ⟨?_, ?_, hq⟩
  · cases hlk : lookupA (ts'.foldl (fun m t =>
      if (parentIdsOf ts0).contains t.id ∧ lookupA depths t.id = some d
      then insertReplace m t.id (minChildStart ts' t.id, maxChildEnd ts' t.id) else m) []) c'.id with
    | none => simp only [hlk]; exact hsig
    | some v =>
      simp only [hlk]
      exact (applyParentDates_sig cal c' v.1 v.2).trans hsig
  · intro hlf
    have hc' : c' = c := hleaf hlf
    have hlk : lookupA (ts'.foldl (fun m t =>
        if (parentIdsOf ts0).contains t.id ∧ lookupA depths t.id = some d
        then insertReplace m t.id (minChildStart ts' t.id, maxChildEnd ts' t.id) else m) [])
        c'.id = none := by
      refine lookupA_roundFold_none _ depths d _ c'.id ?_ ts' [] rfl
      rw [hid, hlf]
    simp only [hlk]
    exact hc'

lemma rollup_rounds_preserve_RollInv (cal : Calendar) (ts0 : List Task) (p : Task)
    (depths : List (String × Int)) :
    ∀ (ds : List Int) {ts ts' : List Task}, List.Forall₂ (RollInv ts0 p) ts ts' →
      List.Forall₂ (RollInv ts0 p) ts
        (ds.foldl (rollupRound cal (parentIdsOf ts0) depths) ts') := by
  intro ds
  induction ds with
  | nil => intro ts ts' h; exact h
  | cons d ds ih =>
    intro ts ts' h
    exact ih (rollupRound_preserves_RollInv cal ts0 p depths d h)

lemma rollupRound_skip_depth (cal : Calendar) (pids : List String)
    (depths : List (String × Int)) (d : Int) (x : Task) (dpx : Int)
    (hdx : lookupA depths x.id = some dpx) (hne : dpx ≠ d)
    (ts' : List Task) (i : Nat) (hx : ts'.get? i = some x) :
    (rollupRound cal pids depths ts' d).get? i = some x := by
  unfold rollupRound
  rw [List.get?_map, hx]
  have hlk : lookupA (ts'.foldl (fun m t =>
      if pids.contains t.id ∧ lookupA depths t.id = some d
      then insertReplace m t.id (minChildStart ts' t.id, maxChildEnd ts' t.id) else m) [])
      x.id = none :=
    lookupA_roundFold_none_of_depth pids depths d _ x.id dpx hdx hne ts' [] rfl
  simp only [Option.map_some']
  rw [hlk]

lemma rollup_rounds_skip_depth (cal : Calendar) (pids : List String)
    (depths : List (String × Int)) (x : Task) (dpx : Int)
    (hdx : lookupA depths x.id = some dpx) :
    ∀ (ds : List Int), (∀ d ∈ ds, d ≠ dpx) → ∀ (ts' : List Task) (i : Nat),
      ts'.get? i = some x →
      (ds.foldl (rollupRound cal pids depths) ts').get? i = some x := by
  intro ds
  induction ds with
  | nil => intro _ ts' i hx; exact hx
  | cons d ds ih =>
    intro hds ts' i hx
    refine ih (fun e he => hds e (List.mem_cons_of_mem _ he)) _ i ?_
    exact rollupRound_skip_depth cal pids depths d x dpx hdx
      (fun he => hds d (List.mem_cons_self _ _) he.symm) ts' i hx

lemma rollupRound_get?_of_lookup (cal : Calendar) (pids : List String)
    (depths : List (String × Int)) (d : Int) (ts' : List Task) (i : Nat) (x : Task)
    (ms me : Option Int) (hx : ts'.get? i = some x)
    (hlk : lookupA (ts'.foldl (fun m t =>
      if pids.contains t.id ∧ lookupA depths t.id = some d
      then insertReplace m t.id (minChildStart ts' t.id, maxChildEnd ts' t.id) else m) [])
      x.id = some (ms, me)) :
    (rollupRound cal pids depths ts' d).get? i = some (applyParentDates cal x ms me) := by
  unfold rollupRound
  rw [List.get?_map, hx]
  simp only [Option.map_some']
  rw [hlk]

lemma rollup_main_aux (cal : Calendar) (ts : List Task) (i : Nat) (p : Task)
    (depths : List (String × Int)) (L₁ L₂ : List Int) (dp : Int)
    (hp : ts.get? i = some p) (hpar : is_parent p.id ts = true)
    (hnd : (ts.map Task.id).Nodup)
    (hch : ∀ c ∈ ts, c.parentId = some p.id → is_parent c.id ts = false)
    (hdlook : lookupA depths p.id = some dp)
    (hnotin₁ : dp ∉ L₁) (hnotin₂ : dp ∉ L₂) :
    ((L₁ ++ dp :: L₂).foldl (rollupRound cal (parentIdsOf ts) depths) ts).get? i =
      some (applyParentDates cal p (minChildStart ts p.id) (maxChildEnd ts p.id)) := by
  rw [List.foldl_append, List.foldl_cons]
  have hpmem : p ∈ ts := List.get?_mem hp
  have hInv₀ : List.Forall₂ (RollInv ts p) ts ts :=
    List.forall₂_same.mpr (fun c hc =>
      ⟨rfl, fun _ => rfl, fun hcp => parentIdsOf_contains_false ts c.id (hch c hc hcp)⟩)
  have hInv₁ : List.Forall₂ (RollInv ts p) ts
      (L₁.foldl (rollupRound cal (parentIdsOf ts) depths) ts) :=
    rollup_rounds_preserve_RollInv cal ts p depths L₁ hInv₀
  have hp₁ : (L₁.foldl (rollupRound cal (parentIdsOf ts) depths) ts).get? i = some p :=
    rollup_rounds_skip_depth cal (parentIdsOf ts) depths p dp hdlook L₁
      (fun d hd he => hnotin₁ (he ▸ hd)) ts i hp
  have hpmem₁ : p ∈ L₁.foldl (rollupRound cal (parentIdsOf ts) depths) ts :=
    List.get?_mem hp₁
  have hmapsig : (L₁.foldl (rollupRound cal (parentIdsOf ts) depths) ts).map sigOf =
      ts.map sigOf := forall2_sig_maps (fun c c' h => h.1) hInv₁
  have hids : (L₁.foldl (rollupRound cal (parentIdsOf ts) depths) ts).map Task.id =
      ts.map Task.id := by
    have h2 := congrArg (List.map Prod.fst) hmapsig
    rw [List.map_map, List.map_map] at h2
    exact h2
  have hnd₁ : ((L₁.foldl (rollupRound cal (parentIdsOf ts) depths) ts).map Task.id).Nodup := by
    rw [hids]; exact hnd
  have hlkP := lookupA_roundFold_some (parentIdsOf ts) depths dp
    (fun t => (minChildStart (L₁.foldl (rollupRound cal (parentIdsOf ts) depths) ts) t.id,
      maxChildEnd (L₁.foldl (rollupRound cal (parentIdsOf ts) depths) ts) t.id)) p
    ⟨parentIdsOf_contains_true ts p hpmem hpar, hdlook⟩
    (L₁.foldl (rollupRound cal (parentIdsOf ts) depths) ts) [] hpmem₁ hnd₁
  have hts₂ : (rollupRound cal (parentIdsOf ts) depths
      (L₁.foldl (rollupRound cal (parentIdsOf ts) depths) ts) dp).get? i =
      some (applyParentDates cal p
        (minChildStart (L₁.foldl (rollupRound cal (parentIdsOf ts) depths) ts) p.id)
        (maxChildEnd (L₁.foldl (rollupRound cal (parentIdsOf ts) depths) ts) p.id)) :=
    rollupRound_get?_of_lookup cal (parentIdsOf ts) depths dp
      (L₁.foldl (rollupRound cal (parentIdsOf ts) depths) ts) i p _ _ hp₁ hlkP
  have hminC : minChildStart (L₁.foldl (rollupRound cal (parentIdsOf ts) depths) ts) p.id =
      minChildStart ts p.id := by
    unfold minChildStart
    refine foldl_congr_of_rel _ (fun a c c' hcc => ?_) hInv₁ none
    obtain ⟨hsig, hleaf, hq⟩ := hcc
    by_cases hcp : c.parentId = some p.id
    · rw [hleaf (hq hcp)]
    · have hps : c'.parentId = c.parentId := congrArg Prod.snd hsig
      rw [hps, if_neg hcp, if_neg hcp]
  have hmaxC : maxChildEnd (L₁.foldl (rollupRound cal (parentIdsOf ts) depths) ts) p.id =
      maxChildEnd ts p.id := by
    unfold maxChildEnd
    refine foldl_congr_of_rel _ (fun a c c' hcc => ?_) hInv₁ none
    obtain ⟨hsig, hleaf, hq⟩ := hcc
    by_cases hcp : c.parentId = some p.id
    · rw [hleaf (hq hcp)]
    · have hps : c'.parentId = c.parentId := congrArg Prod.snd hsig
      rw [hps, if_neg hcp, if_neg hcp]
  rw [hminC, hmaxC] at hts₂
  have hxid : (applyParentDates cal p (minChildStart ts p.id) (maxChildEnd ts p.id)).id =
      p.id := congrArg Prod.fst (applyParentDates_sig cal p _ _)
  exact rollup_rounds_skip_depth cal (parentIdsOf ts) depths _ dp
    (by rw [hxid]; exact hdlook) L₂ (fun d hd he => hnotin₂ (he ▸ hd)) _ i hts₂

/-- Claim C5, amended.  For a parent task `p` whose children are all leaves
(in a task list with distinct ids), `calculate_parent_dates` replaces `p` by
`applyParentDates cal p (minChildStart ts p.id) (maxChildEnd ts p.id)`: its
start becomes the minimum start over children with a non-empty start and its
end the maximum end over children with a non-empty end — the two dates are
computed independently over possibly different children, not over the
children that have both dates; a date with no contributing child keeps its
previous value, and the duration is recomputed only when both resulting
dates are non-empty.  All other tasks at other depths leave `p` untouched. -/
theorem claim_C5_amended (cal : Calendar) (ts : List Task) (i : Nat) (p : Task)
    (hp : ts.get? i = some p) (hpar : is_parent p.id ts = true)
    (hnd : (ts.map Task.id).Nodup)
    (hch : ∀ c ∈ ts, c.parentId = some p.id → is_parent c.id ts = false) :
    (calculate_parent_dates cal ts).get? i =
      some (applyParentDates cal p (minChildStart ts p.id) (maxChildEnd ts p.id)) := by
  have hpmem : p ∈ ts := List.get?_mem hp
  have hdlook : lookupA (ts.foldl (fun m t => insertReplace m t.id (taskDepth ts t.id)) [])
      p.id = some (taskDepth ts p.id) :=
    lookupA_buildFold_some (fun t => taskDepth ts t.id) p ts [] hpmem hnd
  obtain ⟨M, hM, hdpM⟩ := listMax_mem_le (ts.map (fun t => taskDepth ts t.id))
    (taskDepth ts p.id) (List.mem_map.mpr ⟨p, hpmem, rfl⟩)
  have hdp0 : (0 : Int) ≤ taskDepth ts p.id := taskDepth_nonneg ts p.id
  obtain ⟨L₁, L₂, hsplit⟩ :=
    List.append_of_mem (mem_depthList M (taskDepth ts p.id) hdp0 hdpM)
  have hndl := depthList_nodup M
  rw [hsplit] at hndl
  have hnotin₁ : taskDepth ts p.id ∉ L₁ :=
    fun hmem => (List.disjoint_of_nodup_append hndl) hmem (List.mem_cons_self _ _)
  have hnotin₂ : taskDepth ts p.id ∉ L₂ :=
    (List.nodup_cons.mp (List.nodup_append.mp hndl).2.1).1
  unfold calculate_parent_dates
  dsimp only
  rw [hM, Option.getD_some, hsplit]
  exact rollup_main_aux cal ts i p _ L₁ L₂ (taskDepth ts p.id) hp hpar hnd hch hdlook
    hnotin₁ hnotin₂

/-- C5 witness: on the counterexample task list itself (parent `P` with leaf
children `A`, `B`) the amended rollup formula holds at index 0. -/
theorem claim_C5_witness :
    c5Tasks.get? 0 = some (mkTask "P") ∧
    is_parent (mkTask "P").id c5Tasks = true ∧
    (c5Tasks.map Task.id).Nodup ∧
    (∀ c ∈ c5Tasks, c.parentId = some (mkTask "P").id → is_parent c.id c5Tasks = false) ∧
    (calculate_parent_dates calMonFri c5Tasks).get? 0 =
      some (applyParentDates calMonFri (mkTask "P")
        (minChildStart c5Tasks (mkTask "P").id) (maxChildEnd c5Tasks (mkTask "P").id)) :=
  ⟨by decide, by decide, by decide, by decide,
   claim_C5_amended calMonFri c5Tasks 0 (mkTask "P") (by decide) (by decide) (by decide)
     (by decide)⟩

end Scheduler
